import Mathlib

/-!
# Patrol-trajectory simplification and zone-dwell timeline engine

Shallow embedding of the trajectory engine of the `hamsterpi` dashboard
(`simplifyTrajectoryForPatrol`, `sampleTrajectory`, `buildTrajectorySegments`,
`trajectoryDurationMs`, the `targetSamplePoints` computation, and the zone
timeline aggregation of `renderSpatial`).

Modelling conventions:

* JavaScript numbers are modelled by exact rationals `ℚ`.  A coordinate that is
  non-finite in JS (`NaN`, `±Infinity`) is modelled as `none : Option ℚ`; every
  arithmetic comparison involving such a value is `false` in JS, which the
  option-aware comparators below reproduce.
* Every distance in the source is a `Math.hypot` (a square root) that is only
  ever *compared* against a nonnegative threshold, stored, or divided by a
  positive time.  Square roots of rationals are irrational, so the embedding
  tracks the *squares* of all distances, speeds and thresholds; a comparison
  `hypot ≤ r` between nonnegative reals holds iff `hypot² ≤ r²`, so control
  flow is preserved exactly.  Fields and constants carry a `Sq` suffix.
  (The cosmetic `Number(x.toFixed(3))` display rounding of the stored
  `step_px`/`speed_px_s` values is not modelled.)
* A timestamp is a string in the source, used through `Date.parse` and
  `Boolean` coercion.  It is modelled three-way: `none` is the empty string,
  `some none` a nonempty string that does not parse, `some (some n)` a string
  parsing to `n` milliseconds.  String equality is modelled as equality of
  this representation.
* The inert display-only fields (`escape`, `heading_deg`, `coords`) do not
  influence any engine decision and are omitted.
-/

/-- Timestamp model: `none` = empty string, `some none` = nonempty unparsable
string, `some (some n)` = string parsing to `n` ms. -/
abbrev TS := Option (Option ℤ)

/-- `timestampMs` of the source: `Date.parse` returning `null` when the result
is not finite. -/
def timestampMs (ts : TS) : Option ℤ := ts.bind id

/-- A trajectory point as handled by `renderSpatial`: coordinates (with `none`
for non-finite values), timestamp, zone label and the derived squared step
distance / squared speed.  The stored numeric fields are three-way, because
JS `Number` coerces them differently downstream (`Number(null) = 0` is
finite, `Number(undefined)`/`NaN` are not): `none` = `null` (the call-site
mapping's value for absent data), `some none` = `NaN`, `some (some v)` = the
finite value `v` (squared). -/
structure Pt where
  x : Option ℚ
  y : Option ℚ
  timestamp : TS
  zone : String
  stepSqPx : Option (Option ℚ)
  speedSqPx : Option (Option ℚ)
deriving DecidableEq, Repr

instance : Inhabited Pt := ⟨⟨none, none, none, "", none, none⟩⟩

/-- Squared Euclidean distance between two possibly non-finite planar points;
`none` models the `NaN` produced by `Math.hypot` on non-finite input. -/
def distSq (x1 y1 x2 y2 : Option ℚ) : Option ℚ :=
  match x1, y1, x2, y2 with
  | some a, some b, some c, some d => some ((a - c) ^ 2 + (b - d) ^ 2)
  | _, _, _, _ => none

/-- JS comparison `v ≤ c` where `v` may be `NaN` (`none`): `NaN` compares
`false`. -/
def oleB (v : Option ℚ) (c : ℚ) : Bool :=
  match v with
  | some a => decide (a ≤ c)
  | none => false

/-- JS comparison `v < c` with `NaN` (`none`) comparing `false`. -/
def oltB (v : Option ℚ) (c : ℚ) : Bool :=
  match v with
  | some a => decide (a < c)
  | none => false

/-- JS comparison `v ≥ c` with `NaN` (`none`) comparing `false`. -/
def ogeB (v : Option ℚ) (c : ℚ) : Bool :=
  match v with
  | some a => decide (c ≤ a)
  | none => false

/-- `dtMs` of the source: `max(0, currMs - prevMs)` when both timestamps
parse, `null` otherwise. -/
def dtMsOf (prevTs currTs : TS) : Option ℤ :=
  match timestampMs prevTs, timestampMs currTs with
  | some a, some b => some (max 0 (b - a))
  | _, _ => none

/-- JS test `dtMs !== null && dtMs >= minStationaryGapMs`. -/
def dt90B (dt : Option ℤ) : Bool :=
  match dt with
  | some d => decide (90000 ≤ d)
  | none => false

/-- JS test `dtMs !== null && dtMs < g` (used by the moving-gate). -/
def dtLtB (dt : Option ℤ) (g : ℤ) : Bool :=
  match dt with
  | some d => decide (d < g)
  | none => false

/-- The configuration constants of `simplifyTrajectoryForPatrol`, with all
pixel radii squared (the time gaps are exact integers already).
`Math.max` of nonnegative reals commutes with squaring, so each squared
threshold is the max of the squared alternatives. -/
structure PatrolCfg where
  stationaryRadiusSqPx : ℚ
  stationaryExitRadiusSqPx : ℚ
  anchorClusterRadiusSqPx : ℚ
  microMoveSqPx : ℚ
  minMovingGapMs : ℤ
  minStationaryGapMs : ℤ
  minDwellConfirmMs : ℤ
deriving DecidableEq, Repr

/-- `diag² = hypot(max(1,w), max(1,h))²` — the squared plane diagonal after
clamping the bounds to at least 1. -/
def diagSq (frameWidth frameHeight : ℚ) : ℚ :=
  (max 1 frameWidth) ^ 2 + (max 1 frameHeight) ^ 2

/-- `stationaryRadiusPx = max(6.5, diag * 0.006)`, squared. -/
def stationaryRadiusSq (frameWidth frameHeight : ℚ) : ℚ :=
  max ((13 / 2) ^ 2) (diagSq frameWidth frameHeight * (6 / 1000) ^ 2)

/-- `stationaryExitRadiusPx = stationaryRadiusPx * 1.85`, squared. -/
def stationaryExitRadiusSq (frameWidth frameHeight : ℚ) : ℚ :=
  stationaryRadiusSq frameWidth frameHeight * (185 / 100) ^ 2

/-- `anchorClusterRadiusPx = max(20, stationaryExitRadiusPx * 1.6,
diag * 0.023)`, squared. -/
def anchorClusterRadiusSq (frameWidth frameHeight : ℚ) : ℚ :=
  max (20 ^ 2)
    (max (stationaryExitRadiusSq frameWidth frameHeight * (160 / 100) ^ 2)
      (diagSq frameWidth frameHeight * (23 / 1000) ^ 2))

/-- `microMovePx = max(2.2, stationaryRadiusPx * 0.55)`, squared. -/
def microMoveSq (frameWidth frameHeight : ℚ) : ℚ :=
  max ((22 / 10) ^ 2) (stationaryRadiusSq frameWidth frameHeight * (55 / 100) ^ 2)

/-- Derivation of the configuration from the frame size, mirroring the local
constants of `simplifyTrajectoryForPatrol`. -/
def patrolCfg (frameWidth frameHeight : ℚ) : PatrolCfg :=
  { stationaryRadiusSqPx := stationaryRadiusSq frameWidth frameHeight
    stationaryExitRadiusSqPx := stationaryExitRadiusSq frameWidth frameHeight
    anchorClusterRadiusSqPx := anchorClusterRadiusSq frameWidth frameHeight
    microMoveSqPx := microMoveSq frameWidth frameHeight
    minMovingGapMs := 6500
    minStationaryGapMs := 90000
    minDwellConfirmMs := 12000 }

/-- Scan state of the simplifier: the retained points so far (in order), the
last retained point (`lastKept` always equals the last entry of
`simplified`, as in the source where `pushFrom` maintains both), the anchor
coordinates, the anchor entry time, and the hysteresis flag. -/
structure PatrolState where
  simplified : List Pt
  lastKept : Pt
  anchorX : Option ℚ
  anchorY : Option ℚ
  anchorSinceMs : Option ℤ
  inStationaryMode : Bool
deriving DecidableEq, Repr

/-- `pushFrom` of the source: append a retained point for sample `p` placed at
coordinates `(x, y)`, with squared step distance from the last retained point
and squared speed.  The stored step is always a number (`NaN` when a
coordinate was non-finite, hence `some (distSq …)`); the speed is `null`
(`none`) when `dt` is 0 or unknown, else `step / (dt/1000)` — a number that
is `NaN` exactly when the step is. -/
def pushFrom (s : PatrolState) (p : Pt) (x y : Option ℚ) : PatrolState :=
  let dtMs := dtMsOf s.lastKept.timestamp p.timestamp
  let stepSq := distSq x y s.lastKept.x s.lastKept.y
  let speedSq : Option (Option ℚ) :=
    match dtMs with
    | some dt =>
      if 0 < dt then
        some (match stepSq with
          | some st => some (st / ((dt : ℚ) / 1000) ^ 2)
          | none => none)
      else none
    | none => none
  let q : Pt := { p with x := x, y := y, stepSqPx := some stepSq, speedSqPx := speedSq }
  { s with simplified := s.simplified ++ [q], lastKept := q }

/-- Dwell bookkeeping of the near-anchor branch: record the anchor entry time
when absent, or flip the hysteresis flag to stationary once the time since
anchor entry reaches `min_dwell_confirm`. -/
def dwellUpdate (cfg : PatrolCfg) (s : PatrolState) (currMs : Option ℤ) : PatrolState :=
  match currMs with
  | none => s
  | some c =>
    match s.anchorSinceMs with
    | none => { s with anchorSinceMs := some c }
    | some a =>
      if ¬s.inStationaryMode ∧ cfg.minDwellConfirmMs ≤ c - a then
        { s with inStationaryMode := true }
      else s

/-- One iteration of the main scan of `simplifyTrajectoryForPatrol` for the
sample `curr` (the body of the `for` loop over indices `1 … n-1`). -/
def patrolStep (cfg : PatrolCfg) (s : PatrolState) (curr : Pt) : PatrolState :=
  if curr.x.isNone || curr.y.isNone then s
  else if oleB (distSq curr.x curr.y s.anchorX s.anchorY) cfg.anchorClusterRadiusSqPx then
    -- near-anchor branch: dwell bookkeeping, then a possible sparse emission
    if (dwellUpdate cfg s (timestampMs curr.timestamp)).inStationaryMode &&
        dt90B (dtMsOf s.lastKept.timestamp curr.timestamp) then
      pushFrom (dwellUpdate cfg s (timestampMs curr.timestamp)) curr
        (dwellUpdate cfg s (timestampMs curr.timestamp)).anchorX
        (dwellUpdate cfg s (timestampMs curr.timestamp)).anchorY
    else dwellUpdate cfg s (timestampMs curr.timestamp)
  else if dtLtB (dtMsOf s.lastKept.timestamp curr.timestamp) cfg.minMovingGapMs &&
      oltB (distSq curr.x curr.y s.lastKept.x s.lastKept.y)
        (cfg.anchorClusterRadiusSqPx * (65 / 100) ^ 2) then
    { s with inStationaryMode := false }
  else if oltB (distSq curr.x curr.y s.lastKept.x s.lastKept.y) cfg.microMoveSqPx then
    { s with inStationaryMode := false }
  else
    pushFrom
      { s with
          inStationaryMode := false
          anchorX := curr.x
          anchorY := curr.y
          anchorSinceMs := timestampMs curr.timestamp }
      curr curr.x curr.y

/-- Initial scan state of `simplifyTrajectoryForPatrol`: the first point is
always retained (with zero step and speed) and becomes the anchor. -/
def initState (p0 : Pt) : PatrolState :=
  let first : Pt := { p0 with stepSqPx := some (some 0), speedSqPx := some (some 0) }
  { simplified := [first]
    lastKept := first
    anchorX := p0.x
    anchorY := p0.y
    anchorSinceMs := timestampMs p0.timestamp
    inStationaryMode := false }

/-- Tail handling of `simplifyTrajectoryForPatrol`: attempt to represent the
final input point (the source reads `simplified[simplified.length-1]`, which
is `lastKept` by construction). -/
def patrolTail (cfg : PatrolCfg) (s : PatrolState) (tl : Pt) : PatrolState :=
  if tl.x.isNone || tl.y.isNone then s
  else if s.lastKept.timestamp == tl.timestamp &&
      oltB (distSq s.lastKept.x s.lastKept.y tl.x tl.y) (1 / 10000) then s
  else if ogeB (distSq tl.x tl.y s.lastKept.x s.lastKept.y) cfg.microMoveSqPx ||
      dt90B (dtMsOf s.lastKept.timestamp tl.timestamp) then
    if oleB (distSq tl.x tl.y s.anchorX s.anchorY) cfg.anchorClusterRadiusSqPx &&
        dt90B (dtMsOf s.lastKept.timestamp tl.timestamp) then
      pushFrom s tl s.anchorX s.anchorY
    else pushFrom s tl tl.x tl.y
  else s

/-- `simplifyTrajectoryForPatrol`: empty input yields `[]`, up to two points
are returned as a shallow copy, otherwise the anchor-based scan runs followed
by the tail handling. -/
def simplifyTrajectoryForPatrol (points : List Pt) (frameWidth frameHeight : ℚ) : List Pt :=
  match points with
  | [] => []
  | p0 :: rest =>
    if (p0 :: rest).length ≤ 2 then p0 :: rest
    else
      let cfg := patrolCfg frameWidth frameHeight
      let sLoop := rest.foldl (patrolStep cfg) (initState p0)
      (patrolTail cfg sLoop (rest.getLastD p0)).simplified

/-- JS `Math.round`: round half toward positive infinity. -/
def roundJS (q : ℚ) : ℤ := ⌊q + 1 / 2⌋

/-- Index picked by `sampleTrajectory` for slot `i`:
`Math.min(n - 1, Math.round(i * (n - 1) / Math.max(m - 1, 1)))`. -/
def sampleIdx (n m i : ℕ) : ℕ :=
  min (n - 1) (roundJS ((i : ℚ) * (((n : ℚ) - 1) / max ((m : ℚ) - 1) 1))).toNat

/-- `sampleTrajectory`: identity when the list already has at most `maxPoints`
entries, otherwise uniform index-stride sampling over `maxPoints` slots. -/
def sampleTrajectory {α : Type} [Inhabited α] (points : List α) (maxPoints : ℕ) : List α :=
  if points.length ≤ maxPoints then points
  else (List.range maxPoints).map fun i => points.getD (sampleIdx points.length maxPoints i) default

/-- `trajectoryDurationMs`: elapsed milliseconds between the first and last
timestamps of the sequence, 0 when fewer than two points or either endpoint
does not parse, clamped to be nonnegative. -/
def trajectoryDurationMs (points : List Pt) : ℤ :=
  match points with
  | [] => 0
  | [_] => 0
  | p :: rest =>
    match timestampMs p.timestamp, timestampMs (rest.getLastD p).timestamp with
    | some s, some e => max 0 (e - s)
    | _, _ => 0

/-- Target point count of the downsampling stage in `renderSpatial`:
220 by default, `clamp(round(durationMs / 30000), 80, 320)` when the duration
is positive. -/
def targetSamplePoints (durationMs : ℤ) : ℕ :=
  if 0 < durationMs then (max 80 (min 320 (roundJS ((durationMs : ℚ) / 30000)))).toNat
  else 220

/-- A directed movement segment as produced by `buildTrajectorySegments`
(the rendered `coords` pair is carried as the four endpoint coordinates). -/
structure Seg where
  fromX : Option ℚ
  fromY : Option ℚ
  toX : Option ℚ
  toY : Option ℚ
  fromTs : TS
  toTs : TS
  zone : String
  stepSqPx : Option ℚ
  speedSqPx : Option ℚ
deriving DecidableEq, Repr

/-- The squared step attributed to the consecutive pair `(prev, curr)`:
`Number.isFinite(Number(curr.step_px)) ? Number(curr.step_px) :
Math.hypot(dx, dy)`.  A finite stored step is used as is; a `null` stored
step is coerced by `Number(null) = 0` to the (finite) step 0; only a
`NaN`/absent stored step falls back to the Euclidean distance (`none` =
`NaN`). -/
def segStepSq (prev curr : Pt) : Option ℚ :=
  match curr.stepSqPx with
  | some (some v) => some v
  | none => some 0
  | some none => distSq curr.x curr.y prev.x prev.y

/-- The emitted segment speed:
`Number.isFinite(Number(curr.speed_px_s)) ? Number(curr.speed_px_s) : null`.
A finite stored speed is kept, a `null` one is coerced to 0 by
`Number(null) = 0`, and a `NaN` one becomes `null` (`none`). -/
def segSpeedSq (curr : Pt) : Option ℚ :=
  match curr.speedSqPx with
  | some (some v) => some v
  | none => some 0
  | some none => none

/-- The segment record emitted for the pair `(prev, curr)`, or `none` when the
step is below 2.0 (squared: 4; a `NaN` step compares false and is kept). -/
def segOf (prev curr : Pt) : Option Seg :=
  if oltB (segStepSq prev curr) 4 then none
  else
    some
      { fromX := prev.x, fromY := prev.y, toX := curr.x, toY := curr.y
        fromTs := prev.timestamp, toTs := curr.timestamp, zone := curr.zone
        stepSqPx := segStepSq prev curr, speedSqPx := segSpeedSq curr }

/-- `buildTrajectorySegments`: one candidate segment per consecutive pair of
the point sequence, dropping the sub-threshold ones. -/
def buildTrajectorySegments (points : List Pt) : List Seg :=
  (points.zip points.tail).filterMap fun pr => segOf pr.1 pr.2

/-- `normalizeZoneTimelineKey`: the closed category set of the zone timeline. -/
def normalizeZoneTimelineKey (zoneKey : String) : String :=
  if zoneKey = "wheel_zone" ∨ zoneKey = "food_zone" ∨ zoneKey = "sand_bath_zone" ∨
      zoneKey = "hideout_zone" ∨ zoneKey = "outside" then
    zoneKey
  else "unknown"

/-- An entry of the zone timeline source: a timestamp and a zone label. -/
structure TLEntry where
  timestamp : TS
  zone : String
deriving DecidableEq, Repr

instance : Inhabited TLEntry := ⟨⟨none, ""⟩⟩

/-- A maximal contiguous same-category run of the zone timeline, with its
start/end timestamps and dwell duration in minutes (`none` when either
endpoint does not parse).  The source materialises each run as the iteration
`segStart … segEnd` of its `while` loop and stores `dwellMin` at every index
of the run; this derived record carries the per-run data of that loop. -/
structure ZoneRun where
  zone : String
  startTs : TS
  endTs : TS
  dwellMin : Option ℚ
deriving DecidableEq, Repr

/-- The run record closed by the `while` loop over `zoneTimeline` for the run
starting at `startE` and ending at `lastE`: `dwell_minutes =
max(0, (endMs - startMs) / 60000)` when both endpoints parse, else `null`. -/
def mkZoneRun (startE lastE : TLEntry) : ZoneRun :=
  { zone := startE.zone
    startTs := startE.timestamp
    endTs := lastE.timestamp
    dwellMin :=
      match timestampMs startE.timestamp, timestampMs lastE.timestamp with
      | some s, some t => some (max 0 (((t - s : ℤ) : ℚ) / 60000))
      | _, _ => none }

/-- Scan of the `while` loop over `zoneTimeline`: `startE` is the entry that
opened the current run and `lastE` the entry currently ending it; a mismatch
(or the end of the sequence) closes the run. -/
def zoneRunsGo (startE lastE : TLEntry) : List TLEntry → List ZoneRun
  | [] => [mkZoneRun startE lastE]
  | f :: rest =>
    if f.zone == startE.zone then zoneRunsGo startE f rest
    else mkZoneRun startE lastE :: zoneRunsGo f f rest

/-- The run decomposition computed by the `while` loop over `zoneTimeline`:
each maximal contiguous stretch of equal zone labels becomes one run. -/
def zoneRuns : List TLEntry → List ZoneRun
  | [] => []
  | e :: rest => zoneRunsGo e e rest

/-- The zone-timeline source built in `renderSpatial` from the raw
`data.timeseries` stream: normalize the zone, keep entries whose timestamp
string is nonempty. -/
def timelineSourceOf (tseries : List Pt) : List TLEntry :=
  (tseries.map fun p => TLEntry.mk p.timestamp (normalizeZoneTimelineKey p.zone)).filter
    fun e => e.timestamp.isSome

/-- The three outputs of the engine (§6 of the spec): simplified points,
direction segments and zone runs. -/
structure EngineOut where
  simplified_points : List Pt
  segments : List Seg
  zone_runs : List ZoneRun
deriving DecidableEq, Repr

/-- The engine glue of `renderSpatial`: validate (drop non-finite
coordinates), simplify, downsample by the duration-derived target, build
segments, and aggregate the zone timeline (from `tseries` when it has entries
with nonempty timestamps, else from the sampled trajectory). -/
def engine (samples tseries : List Pt) (width height : ℚ) : EngineOut :=
  let valid := samples.filter fun p => p.x.isSome && p.y.isSome
  let simplified := simplifyTrajectoryForPatrol valid width height
  let target := targetSamplePoints (trajectoryDurationMs simplified)
  let sampled := sampleTrajectory simplified target
  let segs := buildTrajectorySegments sampled
  let tl := timelineSourceOf tseries
  let fallback := sampled.map fun p => TLEntry.mk p.timestamp (normalizeZoneTimelineKey p.zone)
  let eff := if 0 < tl.length then tl else fallback
  let tlTarget := max 80 (min 360 (max 1 eff.length))
  let sampledTl := sampleTrajectory eff tlTarget
  let runs := zoneRuns (sampledTl.map fun e => TLEntry.mk e.timestamp (normalizeZoneTimelineKey e.zone))
  ⟨simplified, segs, runs⟩

/-- The observable part of a sample that the claims track: position and
timestamp (the derived `step`/`speed` fields are recomputed on retention). -/
def trajProj (p : Pt) : Option ℚ × Option ℚ × TS := (p.x, p.y, p.timestamp)

/-- A raw sample: finite coordinates, a parsed timestamp (seconds scaled to
ms) and a zone label, with no derived fields attached yet. -/
def mkSample (x y : ℚ) (tMs : ℤ) (zone : String) : Pt :=
  ⟨some x, some y, some (some tMs), zone, none, none⟩

/-- The five samples of the end-to-end scenario of §8 of the spec:
`(10,10)@0s, (11,11)@1s, (10,9)@2s, (50,50)@30s, (50,50)@300s`. -/
def scenarioSamples : List Pt :=
  [mkSample 10 10 0 "", mkSample 11 11 1000 "", mkSample 10 9 2000 "",
   mkSample 50 50 30000 "", mkSample 50 50 300000 ""]

/-- Counterexample input for movement fidelity: four valid samples on a line,
each consecutive step of 10 px (`> micro_move = 3.575` at 100×100) and 10 s
(`> min_moving_gap = 6.5 s`). -/
def fidelitySamples : List Pt :=
  [mkSample 0 0 0 "", mkSample 10 0 10000 "", mkSample 20 0 20000 "", mkSample 30 0 30000 ""]

/-- Counterexample input for endpoint preservation: the final sample lies
3 px (`< micro_move = 3.575` at 100×100) from the last retained point, 1 s
(`< min_stationary_gap`) after it. -/
def endpointSamples : List Pt :=
  [mkSample 0 0 0 "", mkSample 50 50 10000 "", mkSample 53 50 11000 ""]

/-- Counterexample input for the fully-invalid case: two samples with a
non-finite `x`, each carrying a nonempty parseable timestamp and a zone. -/
def invalidSamples : List Pt :=
  [⟨none, some 0, some (some 0), "food_zone", none, none⟩,
   ⟨none, some 0, some (some 10000), "food_zone", none, none⟩]

/-- The zone-label sequence of the zone-run merge scenario of §8, as timeline
entries. -/
def mergeEntries : List TLEntry :=
  [⟨some (some 0), "food_zone"⟩, ⟨some (some 10000), "food_zone"⟩,
   ⟨some (some 20000), "sand_bath_zone"⟩, ⟨some (some 30000), "sand_bath_zone"⟩,
   ⟨some (some 40000), "sand_bath_zone"⟩]

/-- The same zone-run merge scenario as raw timeseries samples (the engine's
zone source). -/
def mergeSamples : List Pt :=
  [mkSample 1 1 0 "food_zone", mkSample 1 1 10000 "food_zone",
   mkSample 1 1 20000 "sand_bath_zone", mkSample 1 1 30000 "sand_bath_zone",
   mkSample 1 1 40000 "sand_bath_zone"]

/-- Two-point input with non-finite coordinates and no derived fields, for the
short-input shallow-copy claim. -/
def shortSamples : List Pt :=
  [⟨none, some 3, some none, "wheel_zone", none, none⟩,
   ⟨some 5, none, none, "", none, none⟩]

/-- Consecutive-pair shapes that the simplifier can leave in its output while
the scan is still live (everything but a raw-coordinate tail emission):
either a movement step that left the anchor cluster, a stationary emission
(same coordinates, both timestamps parsed, at least `min_stationary_gap`
apart), or a step away from a non-finite first point. -/
def pairR (cfg : PatrolCfg) (prev curr : Pt) : Prop :=
  (∃ d, distSq curr.x curr.y prev.x prev.y = some d ∧ cfg.anchorClusterRadiusSqPx < d) ∨
  (prev.x = curr.x ∧ prev.y = curr.y ∧ prev.x.isSome ∧ prev.y.isSome ∧
    ∃ tp tc, timestampMs prev.timestamp = some tp ∧ timestampMs curr.timestamp = some tc ∧
      90000 ≤ tc - tp) ∨
  ((prev.x = none ∨ prev.y = none) ∧ curr.x.isSome ∧ curr.y.isSome)

/-- The remaining consecutive-pair shape, possible only for the very last
output pair: a raw-coordinate tail emission (at least `micro_move` of
displacement, not a duplicate, and less than `min_stationary_gap` elapsed). -/
def tailPairR (cfg : PatrolCfg) (prev curr : Pt) : Prop :=
  ∃ d, distSq curr.x curr.y prev.x prev.y = some d ∧ cfg.microMoveSqPx ≤ d ∧
    ¬(prev.timestamp = curr.timestamp ∧ d < 1 / 10000) ∧
    dt90B (dtMsOf prev.timestamp curr.timestamp) = false

/-- Invariant of the simplifier's scan state (first run): the anchor sits at
the last retained point, `lastKept` closes the `simplified` list, and all
consecutive retained pairs have one of the live shapes. -/
def ScanInv (cfg : PatrolCfg) (s : PatrolState) : Prop :=
  s.anchorX = s.lastKept.x ∧ s.anchorY = s.lastKept.y ∧
  s.simplified.getLast? = some s.lastKept ∧ s.simplified.Chain' (pairR cfg)

/-- Invariant of the replay of the simplifier on its own output: after the
scan has consumed the output point `p`, the state sits exactly on `p` (same
position, timestamp and anchor), and when the hysteresis flag is down the
anchor entry time is `p`'s timestamp. -/
def ReplayInv (s : PatrolState) (p : Pt) : Prop :=
  s.lastKept.x = p.x ∧ s.lastKept.y = p.y ∧ s.lastKept.timestamp = p.timestamp ∧
  s.anchorX = p.x ∧ s.anchorY = p.y ∧
  (s.inStationaryMode = false → s.anchorSinceMs = timestampMs p.timestamp)

/-- Witness input for segment filtering: two valid points whose second entry
carries a finite stored squared step of 25 and a null speed. -/
def c7pts : List Pt :=
  [mkSample 0 0 0 "", ⟨some 3, some 4, some (some 1000), "", some (some 25), none⟩]

/-- Counterexample input for segment filtering: two valid points 70 px apart
whose stored `step_px` is `null` — the call-site mapping's value for absent
step data, which every ≤2-point trajectory carries unchanged into the
builder. -/
def c7nullPts : List Pt := [mkSample 0 0 0 "", mkSample 70 0 1000 ""]

/-- The single segment built from `c7pts` (squared step 25; the null stored
speed is coerced to 0 by `Number(null)`). -/
def c7seg : Seg :=
  { fromX := some 0, fromY := some 0, toX := some 3, toY := some 4
    fromTs := some (some 0), toTs := some (some 1000), zone := ""
    stepSqPx := some 25, speedSqPx := some 0 }

/-- The simplifier's output on the §8 scenario: the first sample (step 0),
the jump to `(50,50)@30s` with squared step 3200 and squared speed 32/9, and
the anchor-snapped dwell point `(50,50)@300s`. -/
def scenarioSimplified : List Pt :=
  [⟨some 10, some 10, some (some 0), "", some (some 0), some (some 0)⟩,
   ⟨some 50, some 50, some (some 30000), "", some (some 3200), some (some (32 / 9))⟩,
   ⟨some 50, some 50, some (some 300000), "", some (some 0), some (some 0)⟩]

/-- The single non-degenerate segment of the §8 scenario. -/
def scenarioSeg : Seg :=
  { fromX := some 10, fromY := some 10, toX := some 50, toY := some 50
    fromTs := some (some 0), toTs := some (some 30000), zone := ""
    stepSqPx := some 3200, speedSqPx := some (32 / 9) }

/-- Witness input for the amended movement-fidelity claim: three valid
samples whose consecutive steps are 30 px (beyond the anchor-cluster radius
20 at 100×100) and 10 s apart. -/
def fidelityWitnessSamples : List Pt :=
  [mkSample 0 0 0 "", mkSample 30 0 10000 "", mkSample 60 0 20000 ""]

/-! ## Structural lemmas about the scan -/

theorem distSq_self (a b : ℚ) : distSq (some a) (some b) (some a) (some b) = some 0 := by
  simp [distSq]

theorem distSq_comm (x1 y1 x2 y2 : Option ℚ) :
    distSq x1 y1 x2 y2 = distSq x2 y2 x1 y1 := by
  rcases x1 with _ | a <;> rcases y1 with _ | b <;> rcases x2 with _ | c <;>
    rcases y2 with _ | d <;> simp [distSq] <;> ring

theorem distSq_isSome {x1 y1 x2 y2 : Option ℚ} {d : ℚ}
    (h : distSq x1 y1 x2 y2 = some d) :
    x1.isSome ∧ y1.isSome ∧ x2.isSome ∧ y2.isSome := by
  rcases x1 with _ | a <;> rcases y1 with _ | b <;> rcases x2 with _ | c <;>
    rcases y2 with _ | d' <;> simp [distSq] at h <;> simp

theorem distSq_none_of_valid {x1 y1 x2 y2 : Option ℚ}
    (hx : x1.isSome) (hy : y1.isSome) (h : distSq x1 y1 x2 y2 = none) :
    x2 = none ∨ y2 = none := by
  rcases x1 with _ | a <;> rcases y1 with _ | b <;> rcases x2 with _ | c <;>
    rcases y2 with _ | d <;> simp_all [distSq]

theorem pushFrom_spec (s : PatrolState) (p : Pt) (x y : Option ℚ) :
    (pushFrom s p x y).simplified = s.simplified ++ [(pushFrom s p x y).lastKept] ∧
    (pushFrom s p x y).lastKept.x = x ∧ (pushFrom s p x y).lastKept.y = y ∧
    (pushFrom s p x y).lastKept.timestamp = p.timestamp ∧
    (pushFrom s p x y).anchorX = s.anchorX ∧ (pushFrom s p x y).anchorY = s.anchorY ∧
    (pushFrom s p x y).anchorSinceMs = s.anchorSinceMs ∧
    (pushFrom s p x y).inStationaryMode = s.inStationaryMode := by
  simp [pushFrom]

theorem dwellUpdate_spec (cfg : PatrolCfg) (s : PatrolState) (c : Option ℤ) :
    (dwellUpdate cfg s c).simplified = s.simplified ∧
    (dwellUpdate cfg s c).lastKept = s.lastKept ∧
    (dwellUpdate cfg s c).anchorX = s.anchorX ∧
    (dwellUpdate cfg s c).anchorY = s.anchorY := by
  unfold dwellUpdate
  rcases c with _ | c
  · exact ⟨rfl, rfl, rfl, rfl⟩
  · cases hs : s.anchorSinceMs with
    | none => exact ⟨rfl, rfl, rfl, rfl⟩
    | some a => simp only [hs]; split <;> exact ⟨rfl, rfl, rfl, rfl⟩

theorem patrolStep_invalid (cfg : PatrolCfg) (s : PatrolState) (curr : Pt)
    (h : curr.x = none ∨ curr.y = none) : patrolStep cfg s curr = s := by
  unfold patrolStep
  rcases h with h | h <;> simp [h]

theorem patrolStep_near (cfg : PatrolCfg) (s : PatrolState) (curr : Pt)
    (hx : curr.x.isSome) (hy : curr.y.isSome)
    (hnear : oleB (distSq curr.x curr.y s.anchorX s.anchorY) cfg.anchorClusterRadiusSqPx = true) :
    patrolStep cfg s curr =
      if (dwellUpdate cfg s (timestampMs curr.timestamp)).inStationaryMode &&
          dt90B (dtMsOf s.lastKept.timestamp curr.timestamp) then
        pushFrom (dwellUpdate cfg s (timestampMs curr.timestamp)) curr
          (dwellUpdate cfg s (timestampMs curr.timestamp)).anchorX
          (dwellUpdate cfg s (timestampMs curr.timestamp)).anchorY
      else dwellUpdate cfg s (timestampMs curr.timestamp) := by
  unfold patrolStep
  rw [Option.isSome_iff_ne_none] at hx hy
  simp [Option.isNone_iff_eq_none, hx, hy, hnear]

theorem patrolStep_far_gate1 (cfg : PatrolCfg) (s : PatrolState) (curr : Pt)
    (hx : curr.x.isSome) (hy : curr.y.isSome)
    (hfar : oleB (distSq curr.x curr.y s.anchorX s.anchorY) cfg.anchorClusterRadiusSqPx = false)
    (hg1 : (dtLtB (dtMsOf s.lastKept.timestamp curr.timestamp) cfg.minMovingGapMs &&
        oltB (distSq curr.x curr.y s.lastKept.x s.lastKept.y)
          (cfg.anchorClusterRadiusSqPx * (65 / 100) ^ 2)) = true) :
    patrolStep cfg s curr = { s with inStationaryMode := false } := by
  unfold patrolStep
  rw [Option.isSome_iff_ne_none] at hx hy
  simp [Option.isNone_iff_eq_none, hx, hy, hfar, hg1]

theorem patrolStep_far_gate2 (cfg : PatrolCfg) (s : PatrolState) (curr : Pt)
    (hx : curr.x.isSome) (hy : curr.y.isSome)
    (hfar : oleB (distSq curr.x curr.y s.anchorX s.anchorY) cfg.anchorClusterRadiusSqPx = false)
    (hg1 : (dtLtB (dtMsOf s.lastKept.timestamp curr.timestamp) cfg.minMovingGapMs &&
        oltB (distSq curr.x curr.y s.lastKept.x s.lastKept.y)
          (cfg.anchorClusterRadiusSqPx * (65 / 100) ^ 2)) = false)
    (hg2 : oltB (distSq curr.x curr.y s.lastKept.x s.lastKept.y) cfg.microMoveSqPx = true) :
    patrolStep cfg s curr = { s with inStationaryMode := false } := by
  unfold patrolStep
  rw [Option.isSome_iff_ne_none] at hx hy
  simp [Option.isNone_iff_eq_none, hx, hy, hfar, hg1, hg2]

theorem patrolStep_far_keep (cfg : PatrolCfg) (s : PatrolState) (curr : Pt)
    (hx : curr.x.isSome) (hy : curr.y.isSome)
    (hfar : oleB (distSq curr.x curr.y s.anchorX s.anchorY) cfg.anchorClusterRadiusSqPx = false)
    (hg1 : (dtLtB (dtMsOf s.lastKept.timestamp curr.timestamp) cfg.minMovingGapMs &&
        oltB (distSq curr.x curr.y s.lastKept.x s.lastKept.y)
          (cfg.anchorClusterRadiusSqPx * (65 / 100) ^ 2)) = false)
    (hg2 : oltB (distSq curr.x curr.y s.lastKept.x s.lastKept.y) cfg.microMoveSqPx = false) :
    patrolStep cfg s curr =
      pushFrom
        { s with
            inStationaryMode := false
            anchorX := curr.x
            anchorY := curr.y
            anchorSinceMs := timestampMs curr.timestamp }
        curr curr.x curr.y := by
  unfold patrolStep
  rw [Option.isSome_iff_ne_none] at hx hy
  simp [Option.isNone_iff_eq_none, hx, hy, hfar, hg1, hg2]

theorem bool_ne_true {b : Bool} (h : b = false) : ¬(b = true) := by simp [h]

theorem patrolTail_invalid (cfg : PatrolCfg) (s : PatrolState) (tl : Pt)
    (h : tl.x = none ∨ tl.y = none) : patrolTail cfg s tl = s := by
  unfold patrolTail
  rcases h with h | h <;> simp [h]

theorem patrolTail_dup (cfg : PatrolCfg) (s : PatrolState) (tl : Pt)
    (hx : tl.x.isSome) (hy : tl.y.isSome)
    (hdup : (s.lastKept.timestamp == tl.timestamp &&
        oltB (distSq s.lastKept.x s.lastKept.y tl.x tl.y) (1 / 10000)) = true) :
    patrolTail cfg s tl = s := by
  have hv : ¬((tl.x.isNone || tl.y.isNone) = true) := by
    rw [Option.isSome_iff_ne_none] at hx hy
    simp [Option.isNone_iff_eq_none, hx, hy]
  unfold patrolTail
  rw [if_neg hv, if_pos hdup]

theorem patrolTail_skip (cfg : PatrolCfg) (s : PatrolState) (tl : Pt)
    (hx : tl.x.isSome) (hy : tl.y.isSome)
    (hdup : (s.lastKept.timestamp == tl.timestamp &&
        oltB (distSq s.lastKept.x s.lastKept.y tl.x tl.y) (1 / 10000)) = false)
    (hgo : (ogeB (distSq tl.x tl.y s.lastKept.x s.lastKept.y) cfg.microMoveSqPx ||
        dt90B (dtMsOf s.lastKept.timestamp tl.timestamp)) = false) :
    patrolTail cfg s tl = s := by
  have hv : ¬((tl.x.isNone || tl.y.isNone) = true) := by
    rw [Option.isSome_iff_ne_none] at hx hy
    simp [Option.isNone_iff_eq_none, hx, hy]
  unfold patrolTail
  rw [if_neg hv, if_neg (bool_ne_true hdup), if_neg (bool_ne_true hgo)]

theorem patrolTail_snap (cfg : PatrolCfg) (s : PatrolState) (tl : Pt)
    (hx : tl.x.isSome) (hy : tl.y.isSome)
    (hdup : (s.lastKept.timestamp == tl.timestamp &&
        oltB (distSq s.lastKept.x s.lastKept.y tl.x tl.y) (1 / 10000)) = false)
    (hgo : (ogeB (distSq tl.x tl.y s.lastKept.x s.lastKept.y) cfg.microMoveSqPx ||
        dt90B (dtMsOf s.lastKept.timestamp tl.timestamp)) = true)
    (hsnap : (oleB (distSq tl.x tl.y s.anchorX s.anchorY) cfg.anchorClusterRadiusSqPx &&
        dt90B (dtMsOf s.lastKept.timestamp tl.timestamp)) = true) :
    patrolTail cfg s tl = pushFrom s tl s.anchorX s.anchorY := by
  have hv : ¬((tl.x.isNone || tl.y.isNone) = true) := by
    rw [Option.isSome_iff_ne_none] at hx hy
    simp [Option.isNone_iff_eq_none, hx, hy]
  unfold patrolTail
  rw [if_neg hv, if_neg (bool_ne_true hdup), if_pos hgo, if_pos hsnap]

theorem patrolTail_raw (cfg : PatrolCfg) (s : PatrolState) (tl : Pt)
    (hx : tl.x.isSome) (hy : tl.y.isSome)
    (hdup : (s.lastKept.timestamp == tl.timestamp &&
        oltB (distSq s.lastKept.x s.lastKept.y tl.x tl.y) (1 / 10000)) = false)
    (hgo : (ogeB (distSq tl.x tl.y s.lastKept.x s.lastKept.y) cfg.microMoveSqPx ||
        dt90B (dtMsOf s.lastKept.timestamp tl.timestamp)) = true)
    (hsnap : (oleB (distSq tl.x tl.y s.anchorX s.anchorY) cfg.anchorClusterRadiusSqPx &&
        dt90B (dtMsOf s.lastKept.timestamp tl.timestamp)) = false) :
    patrolTail cfg s tl = pushFrom s tl tl.x tl.y := by
  have hv : ¬((tl.x.isNone || tl.y.isNone) = true) := by
    rw [Option.isSome_iff_ne_none] at hx hy
    simp [Option.isNone_iff_eq_none, hx, hy]
  unfold patrolTail
  rw [if_neg hv, if_neg (bool_ne_true hdup), if_pos hgo, if_neg (bool_ne_true hsnap)]

/-- A scan iteration only ever appends to the retained list. -/
theorem patrolStep_simplified_mono (cfg : PatrolCfg) (s : PatrolState) (curr : Pt) :
    ∃ t, (patrolStep cfg s curr).simplified = s.simplified ++ t := by
  unfold patrolStep
  split
  · exact ⟨[], by simp⟩
  · split
    · split
      · rcases dwellUpdate_spec cfg s (timestampMs curr.timestamp) with ⟨h1, -, -, -⟩
        exact ⟨_, by rw [(pushFrom_spec _ _ _ _).1, h1]⟩
      · rcases dwellUpdate_spec cfg s (timestampMs curr.timestamp) with ⟨h1, -, -, -⟩
        exact ⟨[], by simp [h1]⟩
    · split
      · exact ⟨[], by simp⟩
      · split
        · exact ⟨[], by simp⟩
        · exact ⟨_, (pushFrom_spec _ _ _ _).1⟩

/-- The whole scan only ever appends to the retained list. -/
theorem foldl_simplified_mono (cfg : PatrolCfg) :
    ∀ (l : List Pt) (s : PatrolState),
      ∃ t, (l.foldl (patrolStep cfg) s).simplified = s.simplified ++ t := by
  intro l
  induction l with
  | nil => exact fun s => ⟨[], by simp⟩
  | cons p l ih =>
    intro s
    rcases ih (patrolStep cfg s p) with ⟨t1, h1⟩
    rcases patrolStep_simplified_mono cfg s p with ⟨t0, h0⟩
    exact ⟨t0 ++ t1, by simp [List.foldl_cons, h1, h0]⟩

/-- The tail handling only ever appends to the retained list. -/
theorem patrolTail_simplified_mono (cfg : PatrolCfg) (s : PatrolState) (tl : Pt) :
    ∃ t, (patrolTail cfg s tl).simplified = s.simplified ++ t := by
  unfold patrolTail
  split
  · exact ⟨[], by simp⟩
  · split
    · exact ⟨[], by simp⟩
    · split
      · split
        · exact ⟨[(pushFrom s tl s.anchorX s.anchorY).lastKept], (pushFrom_spec _ _ _ _).1⟩
        · exact ⟨[(pushFrom s tl tl.x tl.y).lastKept], (pushFrom_spec _ _ _ _).1⟩
      · exact ⟨[], by simp⟩

/-- One scan iteration preserves "the anchor sits at the last retained
point". -/
theorem anchor_tracks_lastKept_step (cfg : PatrolCfg) (s : PatrolState) (curr : Pt)
    (hx : s.anchorX = s.lastKept.x) (hy : s.anchorY = s.lastKept.y) :
    (patrolStep cfg s curr).anchorX = (patrolStep cfg s curr).lastKept.x ∧
    (patrolStep cfg s curr).anchorY = (patrolStep cfg s curr).lastKept.y := by
  unfold patrolStep
  split
  · exact ⟨hx, hy⟩
  · split
    · split
      · rcases pushFrom_spec (dwellUpdate cfg s (timestampMs curr.timestamp)) curr
          (dwellUpdate cfg s (timestampMs curr.timestamp)).anchorX
          (dwellUpdate cfg s (timestampMs curr.timestamp)).anchorY with
          ⟨-, hkx, hky, -, hax, hay, -, -⟩
        rw [hkx, hky, hax, hay]
        exact ⟨rfl, rfl⟩
      · rcases dwellUpdate_spec cfg s (timestampMs curr.timestamp) with ⟨-, hk, hax, hay⟩
        rw [hk, hax, hay]
        exact ⟨hx, hy⟩
    · split
      · exact ⟨hx, hy⟩
      · split
        · exact ⟨hx, hy⟩
        · rcases pushFrom_spec
            { s with
                inStationaryMode := false
                anchorX := curr.x
                anchorY := curr.y
                anchorSinceMs := timestampMs curr.timestamp }
            curr curr.x curr.y with ⟨-, hkx, hky, -, hax, hay, -, -⟩
          rw [hkx, hky, hax, hay]
          exact ⟨rfl, rfl⟩

/-- The anchor sits at the last retained point at every prefix of the scan. -/
theorem anchor_tracks_lastKept_foldl (cfg : PatrolCfg) :
    ∀ (l : List Pt) (s : PatrolState),
      s.anchorX = s.lastKept.x → s.anchorY = s.lastKept.y →
      (l.foldl (patrolStep cfg) s).anchorX = (l.foldl (patrolStep cfg) s).lastKept.x ∧
      (l.foldl (patrolStep cfg) s).anchorY = (l.foldl (patrolStep cfg) s).lastKept.y := by
  intro l
  induction l with
  | nil => exact fun s hx hy => ⟨hx, hy⟩
  | cons p l ih =>
    intro s hx hy
    rcases anchor_tracks_lastKept_step cfg s p hx hy with ⟨hx', hy'⟩
    exact ih (patrolStep cfg s p) hx' hy'

/-- **C10** (invariant): throughout the scan over inputs of more than 2
samples, after the initial point and after every processed sample — in
particular after every retained point is appended — the coordinates of the
last retained point equal the current anchor coordinates: stationary-mode
emissions are placed at the anchor and moving-mode emissions promote
themselves to the anchor, so distances to the last retained point and to the
anchor are measured from the same coordinate whenever the previous sample was
retained. -/
theorem claim_C10_anchor_equals_lastKept (cfg : PatrolCfg) (p0 : Pt) (processed : List Pt) :
    (processed.foldl (patrolStep cfg) (initState p0)).anchorX =
      (processed.foldl (patrolStep cfg) (initState p0)).lastKept.x ∧
    (processed.foldl (patrolStep cfg) (initState p0)).anchorY =
      (processed.foldl (patrolStep cfg) (initState p0)).lastKept.y :=
  anchor_tracks_lastKept_foldl cfg processed (initState p0) rfl rfl

/-- **C9**: the simplifier returns any input of at most two samples as an
unchanged shallow copy — non-finite samples included, with no derived
`step`/`speed` fields attached. -/
theorem claim_C9_short_input_shallow_copy (pts : List Pt) (w h : ℚ) (hlen : pts.length ≤ 2) :
    simplifyTrajectoryForPatrol pts w h = pts := by
  match pts with
  | [] => rfl
  | p :: rest => simp only [simplifyTrajectoryForPatrol, if_pos hlen]

/-- Witness for C9: a concrete two-sample input with non-finite coordinates,
an unparsable and an empty timestamp, and no derived fields, returned
unchanged. -/
theorem claim_C9_witness : simplifyTrajectoryForPatrol shortSamples 640 480 = shortSamples :=
  claim_C9_short_input_shallow_copy shortSamples 640 480 (by decide)

/-- `filterMap` by `segOf` is a filter-then-map. -/
theorem filterMap_segOf_eq (l : List (Pt × Pt)) :
    l.filterMap (fun pr => segOf pr.1 pr.2) =
      (l.filter fun pr => !oltB (segStepSq pr.1 pr.2) 4).map fun pr =>
        { fromX := pr.1.x, fromY := pr.1.y, toX := pr.2.x, toY := pr.2.y
          fromTs := pr.1.timestamp, toTs := pr.2.timestamp, zone := pr.2.zone
          stepSqPx := segStepSq pr.1 pr.2, speedSqPx := segSpeedSq pr.2 } := by
  induction l with
  | nil => rfl
  | cons a t ih =>
    by_cases h : oltB (segStepSq a.1 a.2) 4 = true
    · have hs : segOf a.1 a.2 = none := by rw [segOf, if_pos h]
      simp [List.filterMap_cons, List.filter_cons, hs, h, ih]
    · have hs : segOf a.1 a.2 =
          some
            { fromX := a.1.x, fromY := a.1.y, toX := a.2.x, toY := a.2.y
              fromTs := a.1.timestamp, toTs := a.2.timestamp, zone := a.2.zone
              stepSqPx := segStepSq a.1 a.2, speedSqPx := segSpeedSq a.2 } := by
        rw [segOf, if_neg h]
      rw [Bool.not_eq_true] at h
      simp [List.filterMap_cons, List.filter_cons, hs, h, ih]

/-- Counterexample for C7: two valid points 70 px apart whose stored
`step_px` is `null` (as on every ≤2-point trajectory, where the simplifier
passes the call-site mapping's points through unchanged).  Their Euclidean
distance squared is 4900, far above the threshold, so the claim's
stored-if-present-else-Euclidean step predicts exactly one segment — but JS
coerces the `null` to the finite step 0 (`Number(null) = 0`), and the
builder discards the pair: zero segments, both directly and through the
engine. -/
theorem claim_C7_counterexample :
    buildTrajectorySegments c7nullPts = [] ∧
    (engine c7nullPts [] 100 100).segments = [] ∧
    distSq (mkSample 70 0 1000 "").x (mkSample 70 0 1000 "").y
      (mkSample 0 0 0 "").x (mkSample 0 0 0 "").y = some 4900 ∧
    ¬(4900 : ℚ) < 4 ∧
    (mkSample 70 0 1000 "").stepSqPx = none := by
  refine ⟨?_, ?_, by norm_num [distSq, mkSample], by norm_num, rfl⟩
  · norm_num [buildTrajectorySegments, segOf, segStepSq, oltB, c7nullPts, mkSample,
      List.filterMap_cons]
  · norm_num [engine, simplifyTrajectoryForPatrol, trajectoryDurationMs, targetSamplePoints,
      roundJS, sampleTrajectory, buildTrajectorySegments, segOf, segStepSq, oltB,
      timestampMs, c7nullPts, mkSample, List.filterMap_cons]

/-- **C7** (amended): no emitted `Segment` carries a squared step distance
below 4 (step below 2.0 px), and every pair whose attributed step is not
below the threshold yields exactly one segment, in order — but the step
attributed to a pair follows the JS `Number` coercion: the stored `step_px`
when it is a finite number, **0 when it is `null`** (so a null-step pair is
always discarded, whatever its Euclidean distance), and the Euclidean
distance only when the stored value is `NaN` or absent. -/
theorem claim_C7_amended (pts : List Pt) :
    (∀ seg ∈ buildTrajectorySegments pts, ∀ q : ℚ, seg.stepSqPx = some q → 4 ≤ q) ∧
    buildTrajectorySegments pts =
      ((pts.zip pts.tail).filter fun pr => !oltB (segStepSq pr.1 pr.2) 4).map fun pr =>
        { fromX := pr.1.x, fromY := pr.1.y, toX := pr.2.x, toY := pr.2.y
          fromTs := pr.1.timestamp, toTs := pr.2.timestamp, zone := pr.2.zone
          stepSqPx := segStepSq pr.1 pr.2, speedSqPx := segSpeedSq pr.2 } := by
  constructor
  · intro seg hmem q hq
    rcases List.mem_filterMap.mp hmem with ⟨pr, -, hf⟩
    unfold segOf at hf
    by_cases h : oltB (segStepSq pr.1 pr.2) 4 = true
    · rw [if_pos h] at hf
      exact absurd hf (by simp)
    · rw [if_neg h] at hf
      have hstep : seg.stepSqPx = segStepSq pr.1 pr.2 := by
        rw [← Option.some_inj.mp hf]
      rw [Bool.not_eq_true] at h
      rw [hstep] at hq
      unfold oltB at h
      rw [hq] at h
      simpa using le_of_not_lt (by simpa using h)
  · exact filterMap_segOf_eq (pts.zip pts.tail)

/-- Witness for the amended C7: on the two-point input `c7pts` (finite
stored squared step 25) the only segment has squared step 25, and the
theorem yields `4 ≤ 25`. -/
theorem claim_C7_amended_witness : (4 : ℚ) ≤ 25 :=
  (claim_C7_amended c7pts).1 c7seg
    (by norm_num [buildTrajectorySegments, segOf, segStepSq, segSpeedSq, distSq, oltB,
      c7pts, c7seg, mkSample, List.filterMap_cons])
    25 rfl

/-- **C6**: the zone-label sequence `["food_zone","food_zone",
"sand_bath_zone","sand_bath_zone","sand_bath_zone"]` at 0s, 10s, 20s, 30s,
40s aggregates to exactly two runs — `food_zone` from 0s to 10s with dwell
10/60 min and `sand_bath_zone` from 20s to 40s with dwell 20/60 min — both
for the aggregation loop itself and through the engine's timeline path. -/
theorem claim_C6_zone_run_merge :
    zoneRuns mergeEntries =
      [{ zone := "food_zone", startTs := some (some 0), endTs := some (some 10000),
         dwellMin := some (10 / 60) },
       { zone := "sand_bath_zone", startTs := some (some 20000), endTs := some (some 40000),
         dwellMin := some (20 / 60) }] ∧
    (engine [] mergeSamples 100 100).zone_runs =
      [{ zone := "food_zone", startTs := some (some 0), endTs := some (some 10000),
         dwellMin := some (10 / 60) },
       { zone := "sand_bath_zone", startTs := some (some 20000), endTs := some (some 40000),
         dwellMin := some (20 / 60) }] := by
  constructor
  · norm_num [zoneRuns, zoneRunsGo, mkZoneRun, timestampMs, mergeEntries]
    intro h
    exact absurd h (by decide)
  · norm_num [engine, zoneRuns, zoneRunsGo, mkZoneRun, timelineSourceOf,
      normalizeZoneTimelineKey, sampleTrajectory, timestampMs, mergeSamples, mkSample,
      simplifyTrajectoryForPatrol, trajectoryDurationMs, targetSamplePoints,
      buildTrajectorySegments]
    intro h
    exact absurd h (by decide)

/-- The configuration on the 100×100 plane, evaluated. -/
theorem patrolCfg_100 :
    patrolCfg 100 100 =
      { stationaryRadiusSqPx := 169 / 4
        stationaryExitRadiusSqPx := 231361 / 1600
        anchorClusterRadiusSqPx := 400
        microMoveSqPx := 20449 / 1600
        minMovingGapMs := 6500
        minStationaryGapMs := 90000
        minDwellConfirmMs := 12000 } := by
  norm_num [patrolCfg, diagSq, stationaryRadiusSq, stationaryExitRadiusSq,
    anchorClusterRadiusSq, microMoveSq, max_def]

/-- Evaluation of the simplifier on the §8 scenario. -/
theorem scenario_simplify_eval :
    simplifyTrajectoryForPatrol scenarioSamples 100 100 = scenarioSimplified := by
  norm_num [simplifyTrajectoryForPatrol, initState, patrolStep, patrolTail, pushFrom,
    dwellUpdate, patrolCfg_100, distSq, oleB, oltB, ogeB, dtMsOf, dt90B, dtLtB, timestampMs,
    scenarioSamples, scenarioSimplified, mkSample, List.foldl]

/-- The call-site validator keeps all five (valid) scenario samples. -/
theorem scenario_filter_eval :
    (scenarioSamples.filter fun p => p.x.isSome && p.y.isSome) = scenarioSamples := by
  decide

/-- Elapsed duration of the simplified scenario sequence. -/
theorem scenario_duration_eval : trajectoryDurationMs scenarioSimplified = 300000 := by
  norm_num [trajectoryDurationMs, timestampMs, scenarioSimplified]

/-- Target point count for the 300 s scenario duration. -/
theorem scenario_target_eval : targetSamplePoints 300000 = 80 := by
  norm_num [targetSamplePoints, roundJS]
  decide

/-- The downsampler leaves the 3-point scenario sequence unchanged. -/
theorem scenario_sample_eval : sampleTrajectory scenarioSimplified 80 = scenarioSimplified := by
  norm_num [sampleTrajectory, scenarioSimplified]

/-- The segment builder emits exactly one segment on the scenario output. -/
theorem scenario_segments_eval :
    buildTrajectorySegments scenarioSimplified = [scenarioSeg] := by
  norm_num [buildTrajectorySegments, segOf, segStepSq, segSpeedSq, distSq, oltB,
    scenarioSimplified, scenarioSeg, List.filterMap_cons]

/-- The engine's first two outputs on the §8 scenario. -/
theorem scenario_engine_eval :
    (engine scenarioSamples [] 100 100).simplified_points = scenarioSimplified ∧
    (engine scenarioSamples [] 100 100).segments = [scenarioSeg] := by
  constructor <;>
    simp only [engine, scenario_filter_eval, scenario_simplify_eval, scenario_duration_eval,
      scenario_target_eval, scenario_sample_eval, scenario_segments_eval]

/-- Counterexample for C2: on the §8 end-to-end scenario the pipeline builds
exactly one non-degenerate segment, not two — the pair from `(50,50)@30s` to
the anchor-snapped `(50,50)@300s` has step 0 (< 2.0) and is discarded. -/
theorem claim_C2_counterexample :
    (engine scenarioSamples [] 100 100).segments.length = 1 ∧
    (engine scenarioSamples [] 100 100).segments.length ≠ 2 := by
  rw [scenario_engine_eval.2]
  exact ⟨rfl, by decide⟩

/-- **C2** (amended): the scenario pipeline produces exactly 3 simplified
points — `(10,10)@0s`, `(50,50)@30s` with step ≈ 56.6 (squared step 3200,
with 56.5² < 3200 < 56.7²), and `(50,50)@300s` anchor-snapped — and exactly
**one** non-degenerate segment (the degenerate `(50,50)→(50,50)` pair is
dropped by the 2.0 threshold). -/
theorem claim_C2_amended_scenario :
    (engine scenarioSamples [] 100 100).simplified_points = scenarioSimplified ∧
    (engine scenarioSamples [] 100 100).simplified_points.length = 3 ∧
    ((565 / 10 : ℚ) ^ 2 < 3200 ∧ (3200 : ℚ) < (567 / 10) ^ 2) ∧
    (engine scenarioSamples [] 100 100).segments = [scenarioSeg] := by
  refine ⟨scenario_engine_eval.1, ?_, ⟨by norm_num, by norm_num⟩, scenario_engine_eval.2⟩
  rw [scenario_engine_eval.1]
  rfl

/-- Counterexample for C3: two samples whose `x` is non-finite but which carry
parseable timestamps and a zone label yield empty `simplified_points` and
`segments`, yet a *nonempty* `zone_runs` — the zone timeline ignores
coordinate validity and only filters empty timestamps. -/
theorem claim_C3_counterexample :
    (∀ p ∈ invalidSamples, p.x = none) ∧
    (engine invalidSamples invalidSamples 100 100).simplified_points = [] ∧
    (engine invalidSamples invalidSamples 100 100).segments = [] ∧
    (engine invalidSamples invalidSamples 100 100).zone_runs ≠ [] := by
  refine ⟨by decide, ?_, ?_, ?_⟩ <;>
    norm_num [engine, invalidSamples, simplifyTrajectoryForPatrol, trajectoryDurationMs,
      targetSamplePoints, sampleTrajectory, buildTrajectorySegments, timelineSourceOf,
      normalizeZoneTimelineKey, zoneRuns, zoneRunsGo, mkZoneRun, timestampMs]

/-- **C3** (amended): for every input whose samples all have a non-finite
coordinate (and for the empty input), the engine returns empty
`simplified_points` and empty `segments` and raises no error; `zone_runs` is
additionally empty whenever the zone-timeline source has no entry with a
nonempty timestamp (in particular for the empty input), but samples with
nonempty timestamps still produce zone runs regardless of coordinates. -/
theorem claim_C3_amended (samples tseries : List Pt) (w h : ℚ)
    (hinv : ∀ p ∈ samples, p.x = none ∨ p.y = none) :
    (engine samples tseries w h).simplified_points = [] ∧
    (engine samples tseries w h).segments = [] ∧
    ((∀ p ∈ tseries, p.timestamp = none) → (engine samples tseries w h).zone_runs = []) := by
  have hfilter : (samples.filter fun p => p.x.isSome && p.y.isSome) = [] := by
    rw [List.filter_eq_nil]
    intro p hp
    rcases hinv p hp with h | h <;> simp [h]
  refine ⟨?_, ?_, ?_⟩
  · simp only [engine, hfilter]
    rfl
  · simp only [engine, hfilter]
    rfl
  · intro hts
    have htl : timelineSourceOf tseries = [] := by
      rw [timelineSourceOf, List.filter_eq_nil]
      intro e he
      rcases List.mem_map.mp he with ⟨p, hp, rfl⟩
      simp [hts p hp]
    simp only [engine, hfilter, htl]
    rfl

/-- Witness for the amended C3: the fully-invalid concrete input with an
empty timeline source yields all three outputs empty. -/
theorem claim_C3_amended_witness :
    (engine invalidSamples [] 100 100).simplified_points = [] ∧
    (engine invalidSamples [] 100 100).segments = [] ∧
    (engine invalidSamples [] 100 100).zone_runs = [] :=
  ⟨(claim_C3_amended invalidSamples [] 100 100 (by decide)).1,
   (claim_C3_amended invalidSamples [] 100 100 (by decide)).2.1,
   (claim_C3_amended invalidSamples [] 100 100 (by decide)).2.2 (by simp)⟩

/-- Index arithmetic of the stride sampler: with `2 ≤ m < n` the picked
indices start at 0, end at `n-1`, and are strictly increasing. -/
theorem sampleIdx_spec (n m : ℕ) (h2 : 2 ≤ m) (hmn : m < n) :
    sampleIdx n m 0 = 0 ∧ sampleIdx n m (m - 1) = n - 1 ∧
    ∀ i j : ℕ, i < j → j ≤ m - 1 → sampleIdx n m i < sampleIdx n m j := by
  have hm1 : (1 : ℚ) ≤ (m : ℚ) - 1 := by
    have : (2 : ℚ) ≤ (m : ℚ) := by exact_mod_cast h2
    linarith
  have hmax : max ((m : ℚ) - 1) 1 = (m : ℚ) - 1 := max_eq_left hm1
  have hm0 : (m : ℚ) - 1 ≠ 0 := by linarith
  have hs1 : 1 < ((n : ℚ) - 1) / ((m : ℚ) - 1) := by
    rw [one_lt_div (by linarith)]
    have : (m : ℚ) < (n : ℚ) := by exact_mod_cast hmn
    linarith
  have hs0 : 0 ≤ ((n : ℚ) - 1) / ((m : ℚ) - 1) := le_of_lt (lt_trans one_pos hs1)
  have hfloor_int : ∀ k : ℤ, ⌊(k : ℚ) + 1 / 2⌋ = k := by
    intro k
    rw [add_comm, Int.floor_add_int]
    norm_num
  have hub : ∀ i : ℕ, i ≤ m - 1 →
      roundJS ((i : ℚ) * (((n : ℚ) - 1) / ((m : ℚ) - 1))) ≤ (n : ℤ) - 1 := by
    intro i hi
    have hiq : (i : ℚ) ≤ (m : ℚ) - 1 := by
      have : (i : ℚ) ≤ ((m - 1 : ℕ) : ℚ) := by exact_mod_cast hi
      rwa [Nat.cast_sub (by omega), Nat.cast_one] at this
    have hle : (i : ℚ) * (((n : ℚ) - 1) / ((m : ℚ) - 1)) ≤ (n : ℚ) - 1 := by
      calc (i : ℚ) * (((n : ℚ) - 1) / ((m : ℚ) - 1))
          ≤ ((m : ℚ) - 1) * (((n : ℚ) - 1) / ((m : ℚ) - 1)) :=
            mul_le_mul_of_nonneg_right hiq hs0
        _ = (n : ℚ) - 1 := mul_div_cancel₀ _ hm0
    have := Int.floor_le_floor (add_le_add_right hle (1 / 2))
    rw [roundJS]
    calc ⌊(i : ℚ) * (((n : ℚ) - 1) / ((m : ℚ) - 1)) + 1 / 2⌋
        ≤ ⌊(n : ℚ) - 1 + 1 / 2⌋ := this
      _ = (n : ℤ) - 1 := by
          have : ((n : ℚ) - 1) = (((n : ℤ) - 1 : ℤ) : ℚ) := by push_cast; ring
          rw [this, hfloor_int]
  have hlb : ∀ i : ℕ, 0 ≤ roundJS ((i : ℚ) * (((n : ℚ) - 1) / ((m : ℚ) - 1))) := by
    intro i
    rw [roundJS]
    have h0 : (0 : ℚ) ≤ (i : ℚ) * (((n : ℚ) - 1) / ((m : ℚ) - 1)) :=
      mul_nonneg (Nat.cast_nonneg i) hs0
    have : ((0 : ℤ) : ℚ) ≤ (i : ℚ) * (((n : ℚ) - 1) / ((m : ℚ) - 1)) + 1 / 2 := by
      push_cast
      linarith
    calc (0 : ℤ) = ⌊((0 : ℤ) : ℚ) + 1 / 2⌋ := (hfloor_int 0).symm
      _ ≤ ⌊(i : ℚ) * (((n : ℚ) - 1) / ((m : ℚ) - 1)) + 1 / 2⌋ := by
          apply Int.floor_le_floor
          push_cast
          linarith
  have hmono : ∀ i j : ℕ, i < j →
      roundJS ((i : ℚ) * (((n : ℚ) - 1) / ((m : ℚ) - 1))) + 1 ≤
        roundJS ((j : ℚ) * (((n : ℚ) - 1) / ((m : ℚ) - 1))) := by
    intro i j hij
    have hjq : (i : ℚ) + 1 ≤ (j : ℚ) := by exact_mod_cast hij
    have hstep : (i : ℚ) * (((n : ℚ) - 1) / ((m : ℚ) - 1)) + 1 ≤
        (j : ℚ) * (((n : ℚ) - 1) / ((m : ℚ) - 1)) := by
      have h1 : ((i : ℚ) + 1) * (((n : ℚ) - 1) / ((m : ℚ) - 1)) ≤
          (j : ℚ) * (((n : ℚ) - 1) / ((m : ℚ) - 1)) :=
        mul_le_mul_of_nonneg_right hjq hs0
      nlinarith
    rw [roundJS, roundJS]
    calc ⌊(i : ℚ) * (((n : ℚ) - 1) / ((m : ℚ) - 1)) + 1 / 2⌋ + 1
        = ⌊(i : ℚ) * (((n : ℚ) - 1) / ((m : ℚ) - 1)) + 1 / 2 + (1 : ℤ)⌋ := by
          rw [Int.floor_add_int]
      _ ≤ ⌊(j : ℚ) * (((n : ℚ) - 1) / ((m : ℚ) - 1)) + 1 / 2⌋ := by
          apply Int.floor_le_floor
          push_cast
          linarith
  refine ⟨?_, ?_, ?_⟩
  · rw [sampleIdx, hmax]
    have : ((0 : ℕ) : ℚ) * (((n : ℚ) - 1) / ((m : ℚ) - 1)) = 0 := by norm_num
    rw [this]
    have h0 : roundJS (0 : ℚ) = 0 := by
      rw [roundJS]
      norm_num
    rw [h0]
    simp
  · rw [sampleIdx, hmax]
    have hcast : (((m - 1 : ℕ) : ℚ)) = (m : ℚ) - 1 := by
      rw [Nat.cast_sub (by omega), Nat.cast_one]
    rw [hcast, mul_div_cancel₀ _ hm0]
    have : ((n : ℚ) - 1) = (((n : ℤ) - 1 : ℤ) : ℚ) := by push_cast; ring
    rw [roundJS, this, hfloor_int]
    omega
  · intro i j hij hj
    have hi : i ≤ m - 1 := le_of_lt (lt_of_lt_of_le hij hj)
    have hubi := hub i hi
    have hubj := hub j hj
    have hlbi := hlb i
    have hlbj := hlb j
    have hm := hmono i j hij
    rw [sampleIdx, sampleIdx, hmax]
    omega

/-- **C5**: the downsampling target is `clamp(round(D/30000), 80, 320)` for a
positive duration `D` (hence always within [80, 320]) and 220 when the
duration is unknown or zero; a sequence of at most target-count points is
returned unchanged; otherwise the output is uniform index-stride sampling
over `m` slots whose picked indices start at 0, end at `n-1`, and are
strictly increasing (no duplicated index, original order preserved). -/
theorem claim_C5_downsampler :
    (∀ d : ℤ,
      (0 < d →
        targetSamplePoints d = max 80 (min 320 (roundJS ((d : ℚ) / 30000)).toNat) ∧
        80 ≤ targetSamplePoints d ∧ targetSamplePoints d ≤ 320) ∧
      (d ≤ 0 → targetSamplePoints d = 220)) ∧
    (∀ (pts : List Pt) (m : ℕ), pts.length ≤ m → sampleTrajectory pts m = pts) ∧
    (∀ (pts : List Pt) (m : ℕ), m < pts.length → 2 ≤ m →
      sampleTrajectory pts m =
        (List.range m).map (fun i => pts.getD (sampleIdx pts.length m i) default) ∧
      sampleIdx pts.length m 0 = 0 ∧
      sampleIdx pts.length m (m - 1) = pts.length - 1 ∧
      ∀ i j : ℕ, i < j → j ≤ m - 1 → sampleIdx pts.length m i < sampleIdx pts.length m j) := by
  refine ⟨?_, ?_, ?_⟩
  · intro d
    constructor
    · intro hd
      rw [targetSamplePoints, if_pos hd]
      omega
    · intro hd
      rw [targetSamplePoints, if_neg (not_lt.mpr hd)]
  · intro pts m h
    simp [sampleTrajectory, h]
  · intro pts m h1 h2
    have hspec := sampleIdx_spec pts.length m h2 h1
    refine ⟨?_, hspec.1, hspec.2.1, hspec.2.2⟩
    rw [sampleTrajectory, if_neg (by omega)]

/-- Witness for C5: concrete instances — duration 300 s gives target 80,
duration 0 gives 220; a 3-point list is unchanged under target 80; and with
`n = 3, m = 2` the picked indices are `0` and `2`. -/
theorem claim_C5_witness :
    (80 ≤ targetSamplePoints 300000 ∧ targetSamplePoints 300000 ≤ 320) ∧
    targetSamplePoints 0 = 220 ∧
    sampleTrajectory scenarioSimplified 80 = scenarioSimplified ∧
    sampleIdx 3 2 0 = 0 ∧ sampleIdx 3 2 1 = 2 ∧
    sampleIdx scenarioSimplified.length 2 0 < sampleIdx scenarioSimplified.length 2 1 :=
  ⟨⟨((claim_C5_downsampler.1 300000).1 (by decide)).2.1,
    ((claim_C5_downsampler.1 300000).1 (by decide)).2.2⟩,
   (claim_C5_downsampler.1 0).2 (by decide),
   claim_C5_downsampler.2.1 scenarioSimplified 80 (by decide),
   (claim_C5_downsampler.2.2 scenarioSimplified 2 (by decide) (by decide)).2.1,
   (claim_C5_downsampler.2.2 scenarioSimplified 2 (by decide) (by decide)).2.2.1,
   (claim_C5_downsampler.2.2 scenarioSimplified 2 (by decide) (by decide)).2.2.2 0 1
     (by decide) (by decide)⟩

theorem oleB_false_of_lt {d c : ℚ} (h : c < d) : oleB (some d) c = false := by
  simp [oleB, not_le.mpr h]

theorem oleB_true_of_le {d c : ℚ} (h : d ≤ c) : oleB (some d) c = true := by
  simp [oleB, h]

theorem oltB_false_of_le {d c : ℚ} (h : c ≤ d) : oltB (some d) c = false := by
  simp [oltB, not_lt.mpr h]

theorem ogeB_true_of_le {d c : ℚ} (h : c ≤ d) : ogeB (some d) c = true := by
  simp [ogeB, h]

theorem oltB_none (c : ℚ) : oltB none c = false := rfl

theorem oleB_none (c : ℚ) : oleB none c = false := rfl

/-- A raised hysteresis flag survives the dwell bookkeeping. -/
theorem dwellUpdate_stationary (cfg : PatrolCfg) (s : PatrolState) (c : Option ℤ)
    (h : s.inStationaryMode = true) : (dwellUpdate cfg s c).inStationaryMode = true := by
  unfold dwellUpdate
  rcases c with _ | c
  · exact h
  · cases hs : s.anchorSinceMs with
    | none => exact h
    | some a =>
      simp only [hs]
      split
      · rfl
      · exact h

/-- The dwell bookkeeping raises the flag once `min_dwell_confirm` has
elapsed since anchor entry. -/
theorem dwellUpdate_confirm (cfg : PatrolCfg) (s : PatrolState) (a c : ℤ)
    (hstat : s.inStationaryMode = false) (hsince : s.anchorSinceMs = some a)
    (h : cfg.minDwellConfirmMs ≤ c - a) :
    dwellUpdate cfg s (some c) = { s with inStationaryMode := true } := by
  unfold dwellUpdate
  simp only [hsince]
  rw [if_pos ⟨by simp [hstat], h⟩]

theorem distSq_none_x2 (x1 y1 y2 : Option ℚ) : distSq x1 y1 none y2 = none := by
  rcases x1 with _ | a <;> rcases y1 with _ | b <;> rfl

theorem distSq_none_y2 (x1 y1 x2 : Option ℚ) : distSq x1 y1 x2 none = none := by
  rcases x1 with _ | a <;> rcases y1 with _ | b <;> rcases x2 with _ | c <;> rfl

/-- Replay of one output point: from a state sitting exactly on the previous
output point `p`, any output point `q` in one of the live pair shapes is
retained again (one append) and the state moves onto `q`. -/
theorem step_replay (cfg : PatrolCfg)
    (hmc : cfg.microMoveSqPx ≤ cfg.anchorClusterRadiusSqPx)
    (hc0 : 0 < cfg.anchorClusterRadiusSqPx)
    (hdw : cfg.minDwellConfirmMs ≤ 90000)
    (s : PatrolState) (p q : Pt) (hinv : ReplayInv s p) (hpair : pairR cfg p q) :
    (patrolStep cfg s q).simplified = s.simplified ++ [(patrolStep cfg s q).lastKept] ∧
    ReplayInv (patrolStep cfg s q) q := by
  obtain ⟨hkx, hky, hkt, hax, hay, hsince⟩ := hinv
  rcases hpair with ⟨d, hd, hdc⟩ | ⟨hxx, hyy, hxs, hys, tp, tc, htp, htc, hgap⟩ | ⟨hpn, hqx, hqy⟩
  · -- movement pair: the far branch retains and promotes
    obtain ⟨hqx, hqy, hpx, hpy⟩ := distSq_isSome hd
    have hfar : oleB (distSq q.x q.y s.anchorX s.anchorY) cfg.anchorClusterRadiusSqPx = false := by
      rw [hax, hay, hd]
      exact oleB_false_of_lt hdc
    have hdlast : distSq q.x q.y s.lastKept.x s.lastKept.y = some d := by
      rw [hkx, hky]
      exact hd
    have hg1 : (dtLtB (dtMsOf s.lastKept.timestamp q.timestamp) cfg.minMovingGapMs &&
        oltB (distSq q.x q.y s.lastKept.x s.lastKept.y)
          (cfg.anchorClusterRadiusSqPx * (65 / 100) ^ 2)) = false := by
      rw [hdlast, oltB_false_of_le (by nlinarith), Bool.and_false]
    have hg2 : oltB (distSq q.x q.y s.lastKept.x s.lastKept.y) cfg.microMoveSqPx = false := by
      rw [hdlast]
      exact oltB_false_of_le (le_of_lt (lt_of_le_of_lt hmc hdc))
    rw [patrolStep_far_keep cfg s q hqx hqy hfar hg1 hg2]
    exact ⟨(pushFrom_spec _ _ _ _).1, (pushFrom_spec _ _ _ _).2.1,
      (pushFrom_spec _ _ _ _).2.2.1, (pushFrom_spec _ _ _ _).2.2.2.1,
      (pushFrom_spec _ _ _ _).2.2.2.2.1, (pushFrom_spec _ _ _ _).2.2.2.2.2.1,
      fun _ => (pushFrom_spec _ _ _ _).2.2.2.2.2.2.1⟩
  · -- stationary pair: the near branch emits at the anchor
    obtain ⟨ax, hax'⟩ := Option.isSome_iff_exists.mp hxs
    obtain ⟨ay, hay'⟩ := Option.isSome_iff_exists.mp hys
    have hqxv : q.x = some ax := hxx ▸ hax'
    have hqyv : q.y = some ay := hyy ▸ hay'
    have hdanchor : distSq q.x q.y s.anchorX s.anchorY = some 0 := by
      rw [hax, hay, hqxv, hqyv, hax', hay', distSq_self]
    have hnear : oleB (distSq q.x q.y s.anchorX s.anchorY) cfg.anchorClusterRadiusSqPx = true := by
      rw [hdanchor]
      exact oleB_true_of_le (le_of_lt hc0)
    have hdt : dtMsOf s.lastKept.timestamp q.timestamp = some (tc - tp) := by
      rw [hkt]
      unfold dtMsOf
      rw [htp, htc]
      show some (max 0 (tc - tp)) = some (tc - tp)
      rw [max_eq_right (by linarith)]
    have hdt90 : dt90B (dtMsOf s.lastKept.timestamp q.timestamp) = true := by
      rw [hdt]
      unfold dt90B
      simp [hgap]
    have hstat1 : (dwellUpdate cfg s (timestampMs q.timestamp)).inStationaryMode = true := by
      cases hsm : s.inStationaryMode
      · rw [htc, dwellUpdate_confirm cfg s tp tc hsm (by rw [hsince hsm, htp])
          (by linarith)]
      · exact dwellUpdate_stationary cfg s _ hsm
    rw [patrolStep_near cfg s q (by rw [hqxv]; rfl) (by rw [hqyv]; rfl) hnear,
      if_pos (by rw [hstat1, hdt90]; rfl)]
    obtain ⟨hds, hdk, hdax, hday⟩ := dwellUpdate_spec cfg s (timestampMs q.timestamp)
    refine ⟨?_, ?_, ?_, (pushFrom_spec _ _ _ _).2.2.2.1, ?_, ?_, ?_⟩
    · rw [(pushFrom_spec _ _ _ _).1, hds]
    · rw [(pushFrom_spec _ _ _ _).2.1, hdax, hax, ← hxx]
    · rw [(pushFrom_spec _ _ _ _).2.2.1, hday, hay, ← hyy]
    · rw [(pushFrom_spec _ _ _ _).2.2.2.2.1, hdax, hax, ← hxx]
    · rw [(pushFrom_spec _ _ _ _).2.2.2.2.2.1, hday, hay, ← hyy]
    · intro hfalse
      rw [(pushFrom_spec _ _ _ _).2.2.2.2.2.2.2, hstat1] at hfalse
      exact absurd hfalse (by simp)
  · -- step away from a non-finite first point: the far branch retains
    have hdanchor : distSq q.x q.y s.anchorX s.anchorY = none := by
      rw [hax, hay]
      rcases hpn with h | h
      · rw [h]
        exact distSq_none_x2 _ _ _
      · rw [h]
        exact distSq_none_y2 _ _ _
    have hdlast : distSq q.x q.y s.lastKept.x s.lastKept.y = none := by
      rw [hkx, hky]
      rcases hpn with h | h
      · rw [h]
        exact distSq_none_x2 _ _ _
      · rw [h]
        exact distSq_none_y2 _ _ _
    have hfar : oleB (distSq q.x q.y s.anchorX s.anchorY) cfg.anchorClusterRadiusSqPx = false := by
      rw [hdanchor]
      rfl
    have hg1 : (dtLtB (dtMsOf s.lastKept.timestamp q.timestamp) cfg.minMovingGapMs &&
        oltB (distSq q.x q.y s.lastKept.x s.lastKept.y)
          (cfg.anchorClusterRadiusSqPx * (65 / 100) ^ 2)) = false := by
      rw [hdlast, oltB_none, Bool.and_false]
    have hg2 : oltB (distSq q.x q.y s.lastKept.x s.lastKept.y) cfg.microMoveSqPx = false := by
      rw [hdlast, oltB_none]
    rw [patrolStep_far_keep cfg s q hqx hqy hfar hg1 hg2]
    exact ⟨(pushFrom_spec _ _ _ _).1, (pushFrom_spec _ _ _ _).2.1,
      (pushFrom_spec _ _ _ _).2.2.1, (pushFrom_spec _ _ _ _).2.2.2.1,
      (pushFrom_spec _ _ _ _).2.2.2.2.1, (pushFrom_spec _ _ _ _).2.2.2.2.2.1,
      fun _ => (pushFrom_spec _ _ _ _).2.2.2.2.2.2.1⟩

/-- Replay of a whole chain of live output pairs: every point is retained
again, in order, and the scan ends sitting on the last point. -/
theorem fold_replay (cfg : PatrolCfg)
    (hmc : cfg.microMoveSqPx ≤ cfg.anchorClusterRadiusSqPx)
    (hc0 : 0 < cfg.anchorClusterRadiusSqPx)
    (hdw : cfg.minDwellConfirmMs ≤ 90000) :
    ∀ (l : List Pt) (s : PatrolState) (p : Pt), ReplayInv s p →
      List.Chain' (pairR cfg) (p :: l) →
      (l.foldl (patrolStep cfg) s).simplified.map trajProj =
        s.simplified.map trajProj ++ l.map trajProj ∧
      ReplayInv (l.foldl (patrolStep cfg) s) (l.getLastD p) := by
  intro l
  induction l with
  | nil =>
    intro s p hinv _
    exact ⟨by simp, hinv⟩
  | cons q l ih =>
    intro s p hinv hchain
    rcases List.chain'_cons.mp hchain with ⟨hpair, hchain'⟩
    obtain ⟨happ, hinv'⟩ := step_replay cfg hmc hc0 hdw s p q hinv hpair
    have hrest := ih (patrolStep cfg s q) q hinv' hchain'
    have hproj : trajProj (patrolStep cfg s q).lastKept = trajProj q := by
      obtain ⟨h1, h2, h3, -, -, -⟩ := hinv'
      simp [trajProj, h1, h2, h3]
    constructor
    · rw [List.foldl_cons, hrest.1, happ]
      simp [hproj]
    · rw [List.foldl_cons, List.getLastD_cons]
      exact hrest.2

/-- The initial scan state sits exactly on the first sample. -/
theorem initState_replayInv (p0 : Pt) : ReplayInv (initState p0) p0 := by
  refine ⟨rfl, rfl, rfl, rfl, rfl, fun _ => rfl⟩

/-- Duplicate-tail suppression: when the scan already sits on the (valid)
final point, the tail handling changes nothing. -/
theorem patrolTail_of_replayInv (cfg : PatrolCfg) (s : PatrolState) (tl : Pt)
    (hinv : ReplayInv s tl) (hx : tl.x.isSome) (hy : tl.y.isSome) :
    patrolTail cfg s tl = s := by
  obtain ⟨hkx, hky, hkt, -, -, -⟩ := hinv
  obtain ⟨ax, hax⟩ := Option.isSome_iff_exists.mp hx
  obtain ⟨ay, hay⟩ := Option.isSome_iff_exists.mp hy
  apply patrolTail_dup cfg s tl hx hy
  rw [hkt, hkx, hky, hax, hay, distSq_self]
  simp [oltB]

/-- The micro-move threshold never exceeds the anchor-cluster radius, the
cluster radius is positive, and the dwell-confirm gap is below the
stationary emission gap — for every frame size. -/
theorem patrolCfg_bounds (w h : ℚ) :
    (patrolCfg w h).microMoveSqPx ≤ (patrolCfg w h).anchorClusterRadiusSqPx ∧
    0 < (patrolCfg w h).anchorClusterRadiusSqPx ∧
    (patrolCfg w h).minDwellConfirmMs ≤ 90000 := by
  have hd0 : 0 ≤ diagSq w h := add_nonneg (sq_nonneg _) (sq_nonneg _)
  have hsr : (0 : ℚ) < stationaryRadiusSq w h :=
    lt_of_lt_of_le (by norm_num) (le_max_left _ _)
  refine ⟨?_, ?_, by norm_num [patrolCfg]⟩
  · show microMoveSq w h ≤ anchorClusterRadiusSq w h
    apply max_le
    · exact le_trans (by norm_num) (le_max_left (20 ^ 2) _)
    · refine le_trans ?_ (le_trans (le_max_left _ (diagSq w h * (23 / 1000) ^ 2))
        (le_max_right (20 ^ 2) _))
      unfold stationaryExitRadiusSq
      nlinarith [hsr]
  · show (0 : ℚ) < anchorClusterRadiusSq w h
    exact lt_of_lt_of_le (by norm_num) (le_max_left _ _)

/-- The `getLastD` of a list is the default or a member. -/
theorem getLastD_mem_cons {α : Type} :
    ∀ (l : List α) (a : α), l.getLastD a ∈ a :: l := by
  intro l
  induction l with
  | nil => intro a; simp [List.getLastD]
  | cons b t ih =>
    intro a
    rw [List.getLastD_cons]
    exact List.mem_cons_of_mem a (ih b)

/-- Counterexample for C4: four samples, each step 10 px
(above `micro_move ≈ 3.575` at 100×100) and 10 s (above `min_moving_gap`)
apart, of which the simplifier keeps only 2 — steps that stay inside the
anchor-cluster radius are treated as dwell around the anchor and dropped. -/
theorem claim_C4_counterexample :
    fidelitySamples.Chain' (fun a b => ∃ d : ℚ, distSq b.x b.y a.x a.y = some d ∧
      (patrolCfg 100 100).microMoveSqPx < d) ∧
    fidelitySamples.Chain' (fun a b => ∃ tp tc : ℤ, timestampMs a.timestamp = some tp ∧
      timestampMs b.timestamp = some tc ∧ 6500 < tc - tp) ∧
    fidelitySamples.length = 4 ∧
    (simplifyTrajectoryForPatrol fidelitySamples 100 100).length = 2 := by
  refine ⟨?_, ?_, by decide, ?_⟩
  · simp only [fidelitySamples, mkSample, List.chain'_cons, List.chain'_singleton, and_true]
    refine ⟨⟨100, ?_, ?_⟩, ⟨100, ?_, ?_⟩, ⟨100, ?_, ?_⟩⟩ <;>
      norm_num [distSq, patrolCfg_100]
  · simp only [fidelitySamples, mkSample, List.chain'_cons, List.chain'_singleton, and_true]
    exact ⟨⟨0, 10000, rfl, rfl, by norm_num⟩, ⟨10000, 20000, rfl, rfl, by norm_num⟩,
      ⟨20000, 30000, rfl, rfl, by norm_num⟩⟩
  · norm_num [simplifyTrajectoryForPatrol, initState, patrolStep, patrolTail, pushFrom,
      dwellUpdate, patrolCfg_100, distSq, oleB, oltB, ogeB, dtMsOf, dt90B, dtLtB, timestampMs,
      fidelitySamples, mkSample, List.foldl]

/-- **C4** (amended): a sequence of valid samples whose consecutive steps
each exceed the **anchor-cluster radius** in displacement and
`min_moving_gap` in elapsed time is retained in full — every sample appears
in the output, in order, at its raw coordinates and timestamp. -/
theorem claim_C4_amended (pts : List Pt) (w h : ℚ)
    (hvalid : ∀ p ∈ pts, p.x.isSome ∧ p.y.isSome)
    (hmove : pts.Chain' fun a b => ∃ d : ℚ, distSq b.x b.y a.x a.y = some d ∧
      (patrolCfg w h).anchorClusterRadiusSqPx < d)
    (hgap : pts.Chain' fun a b => ∃ tp tc : ℤ, timestampMs a.timestamp = some tp ∧
      timestampMs b.timestamp = some tc ∧ 6500 < tc - tp) :
    (simplifyTrajectoryForPatrol pts w h).map trajProj = pts.map trajProj := by
  rcases pts with _ | ⟨p0, rest⟩
  · rfl
  · by_cases hlen : (p0 :: rest).length ≤ 2
    · rw [simplifyTrajectoryForPatrol, if_pos hlen]
    · rw [simplifyTrajectoryForPatrol, if_neg hlen]
      have hbounds := patrolCfg_bounds w h
      have hchain : (p0 :: rest).Chain' (pairR (patrolCfg w h)) :=
        hmove.imp fun a b hab => Or.inl hab
      have hfold := fold_replay (patrolCfg w h) hbounds.1 hbounds.2.1 hbounds.2.2 rest
        (initState p0) p0 (initState_replayInv p0) hchain
      have htlmem : rest.getLastD p0 ∈ p0 :: rest := getLastD_mem_cons rest p0
      have htlv := hvalid _ htlmem
      show List.map trajProj
          (patrolTail (patrolCfg w h) (List.foldl (patrolStep (patrolCfg w h)) (initState p0) rest)
            (rest.getLastD p0)).simplified =
        List.map trajProj (p0 :: rest)
      rw [patrolTail_of_replayInv (patrolCfg w h) _ _ hfold.2 htlv.1 htlv.2, hfold.1]
      simp [initState, trajProj]

/-- Witness for the amended C4: three samples with 30 px steps 10 s apart are
all retained. -/
theorem claim_C4_amended_witness :
    (simplifyTrajectoryForPatrol fidelityWitnessSamples 100 100).map trajProj =
      fidelityWitnessSamples.map trajProj :=
  claim_C4_amended fidelityWitnessSamples 100 100 (by decide)
    (by
      simp only [fidelityWitnessSamples, mkSample, List.chain'_cons, List.chain'_singleton,
        and_true]
      refine ⟨⟨900, ?_, ?_⟩, ⟨900, ?_, ?_⟩⟩ <;> norm_num [distSq, patrolCfg_100])
    (by
      simp only [fidelityWitnessSamples, mkSample, List.chain'_cons, List.chain'_singleton,
        and_true]
      exact ⟨⟨0, 10000, rfl, rfl, by norm_num⟩, ⟨10000, 20000, rfl, rfl, by norm_num⟩⟩)

/-- Invalid samples are skipped without any state change. -/
theorem foldl_invalid_skip (cfg : PatrolCfg) :
    ∀ (pre : List Pt) (s : PatrolState), (∀ r ∈ pre, r.x = none ∨ r.y = none) →
      pre.foldl (patrolStep cfg) s = s := by
  intro pre
  induction pre with
  | nil => intro s _; rfl
  | cons r t ih =>
    intro s hall
    rw [List.foldl_cons, patrolStep_invalid cfg s r (hall r (List.mem_cons_self r t))]
    exact ih s fun x hx => hall x (List.mem_cons_of_mem r hx)

/-- Conditional tail emission: a valid, non-duplicate final point that moves
at least `micro_move` or lags at least `min_stationary_gap` is appended —
either at its raw coordinates or anchor-snapped. -/
theorem patrolTail_emits (cfg : PatrolCfg) (s : PatrolState) (tl : Pt)
    (hx : tl.x.isSome) (hy : tl.y.isSome)
    (hdup : (s.lastKept.timestamp == tl.timestamp &&
        oltB (distSq s.lastKept.x s.lastKept.y tl.x tl.y) (1 / 10000)) = false)
    (hgo : (ogeB (distSq tl.x tl.y s.lastKept.x s.lastKept.y) cfg.microMoveSqPx ||
        dt90B (dtMsOf s.lastKept.timestamp tl.timestamp)) = true) :
    ∃ qn, (patrolTail cfg s tl).simplified = s.simplified ++ [qn] ∧
      qn.timestamp = tl.timestamp ∧
      ((qn.x = tl.x ∧ qn.y = tl.y) ∨ (qn.x = s.anchorX ∧ qn.y = s.anchorY)) := by
  by_cases hsnap : (oleB (distSq tl.x tl.y s.anchorX s.anchorY) cfg.anchorClusterRadiusSqPx &&
      dt90B (dtMsOf s.lastKept.timestamp tl.timestamp)) = true
  · rw [patrolTail_snap cfg s tl hx hy hdup hgo hsnap]
    exact ⟨_, (pushFrom_spec _ _ _ _).1, (pushFrom_spec _ _ _ _).2.2.2.1,
      Or.inr ⟨(pushFrom_spec _ _ _ _).2.1, (pushFrom_spec _ _ _ _).2.2.1⟩⟩
  · rw [patrolTail_raw cfg s tl hx hy hdup hgo (Bool.not_eq_true _ ▸ hsnap)]
    exact ⟨_, (pushFrom_spec _ _ _ _).1, (pushFrom_spec _ _ _ _).2.2.2.1,
      Or.inl ⟨(pushFrom_spec _ _ _ _).2.1, (pushFrom_spec _ _ _ _).2.2.1⟩⟩

/-- Counterexample for C1: with the last sample 3 px (< `micro_move` = 3.575
at 100×100) from the last retained point and only 1 s (< `min_stationary_gap`)
after it, the tail handling silently drops the final valid sample: no output
point carries its timestamp. -/
theorem claim_C1_counterexample :
    (simplifyTrajectoryForPatrol endpointSamples 100 100).map trajProj =
      [(some 0, some 0, some (some 0)), (some 50, some 50, some (some 10000))] ∧
    (endpointSamples.getLastD default).timestamp = some (some 11000) ∧
    ∀ q ∈ simplifyTrajectoryForPatrol endpointSamples 100 100,
      q.timestamp ≠ some (some 11000) := by
  have heval : simplifyTrajectoryForPatrol endpointSamples 100 100 =
      [⟨some 0, some 0, some (some 0), "", some (some 0), some (some 0)⟩,
       ⟨some 50, some 50, some (some 10000), "", some (some 5000), some (some 50)⟩] := by
    norm_num [simplifyTrajectoryForPatrol, initState, patrolStep, patrolTail, pushFrom,
      dwellUpdate, patrolCfg_100, distSq, oleB, oltB, ogeB, dtMsOf, dt90B, dtLtB, timestampMs,
      endpointSamples, mkSample, List.foldl]
  rw [heval]
  refine ⟨rfl, rfl, ?_⟩
  decide

/-- **C1** (amended): (a) the first input sample always heads the output;
(b) when the samples before the first valid one are all invalid, the first
valid sample is still represented at its raw position and timestamp;
(c) the tail handling represents the final input point — raw or
anchor-snapped — whenever it is valid, differs from the last retained point
(by timestamp or by at least 0.01 px), and either moves at least
`micro_move` from the last retained point or lags it by at least
`min_stationary_gap`.  A final sample below both thresholds, or a final
*valid* sample followed by invalid ones, can be silently dropped. -/
theorem claim_C1_amended :
    (∀ (pts : List Pt) (w h : ℚ), pts ≠ [] →
      (simplifyTrajectoryForPatrol pts w h).head?.map trajProj = pts.head?.map trajProj) ∧
    (∀ (p0 q : Pt) (pre rest : List Pt) (w h : ℚ),
      (p0.x = none ∨ p0.y = none) → (∀ r ∈ pre, r.x = none ∨ r.y = none) →
      q.x.isSome → q.y.isSome →
      ∃ out ∈ simplifyTrajectoryForPatrol (p0 :: (pre ++ q :: rest)) w h,
        trajProj out = trajProj q) ∧
    (∀ (cfg : PatrolCfg) (s : PatrolState) (tl : Pt),
      tl.x.isSome → tl.y.isSome →
      (s.lastKept.timestamp == tl.timestamp &&
        oltB (distSq s.lastKept.x s.lastKept.y tl.x tl.y) (1 / 10000)) = false →
      (ogeB (distSq tl.x tl.y s.lastKept.x s.lastKept.y) cfg.microMoveSqPx ||
        dt90B (dtMsOf s.lastKept.timestamp tl.timestamp)) = true →
      ∃ qn, (patrolTail cfg s tl).simplified = s.simplified ++ [qn] ∧
        qn.timestamp = tl.timestamp ∧
        ((qn.x = tl.x ∧ qn.y = tl.y) ∨ (qn.x = s.anchorX ∧ qn.y = s.anchorY))) := by
  refine ⟨?_, ?_, patrolTail_emits⟩
  · intro pts w h hne
    rcases pts with _ | ⟨p0, rest⟩
    · exact absurd rfl hne
    · by_cases hlen : (p0 :: rest).length ≤ 2
      · rw [simplifyTrajectoryForPatrol, if_pos hlen]
      · rw [simplifyTrajectoryForPatrol, if_neg hlen]
        obtain ⟨t1, h1⟩ :=
          foldl_simplified_mono (patrolCfg w h) rest (initState p0)
        obtain ⟨t2, h2⟩ := patrolTail_simplified_mono (patrolCfg w h)
          (rest.foldl (patrolStep (patrolCfg w h)) (initState p0)) (rest.getLastD p0)
        show ((patrolTail (patrolCfg w h)
            (rest.foldl (patrolStep (patrolCfg w h)) (initState p0))
            (rest.getLastD p0)).simplified).head?.map trajProj =
          (p0 :: rest).head?.map trajProj
        rw [h2, h1]
        simp [initState, trajProj]
  · intro p0 q pre rest w h hp0 hpre hqx hqy
    by_cases hlen : (p0 :: (pre ++ q :: rest)).length ≤ 2
    · refine ⟨q, ?_, rfl⟩
      rw [simplifyTrajectoryForPatrol, if_pos hlen]
      exact List.mem_cons_of_mem p0 (List.mem_append_right pre (List.mem_cons_self q rest))
    · rw [simplifyTrajectoryForPatrol, if_neg hlen]
      have hbounds := patrolCfg_bounds w h
      obtain ⟨happ, hinv⟩ := step_replay (patrolCfg w h) hbounds.1 hbounds.2.1 hbounds.2.2
        (initState p0) p0 q (initState_replayInv p0) (Or.inr (Or.inr ⟨hp0, hqx, hqy⟩))
      have hfold : (pre ++ q :: rest).foldl (patrolStep (patrolCfg w h)) (initState p0) =
          rest.foldl (patrolStep (patrolCfg w h)) (patrolStep (patrolCfg w h) (initState p0) q) := by
        rw [List.foldl_append, foldl_invalid_skip (patrolCfg w h) pre (initState p0) hpre,
          List.foldl_cons]
      obtain ⟨t1, h1⟩ := foldl_simplified_mono (patrolCfg w h) rest
        (patrolStep (patrolCfg w h) (initState p0) q)
      obtain ⟨t2, h2⟩ := patrolTail_simplified_mono (patrolCfg w h)
        ((pre ++ q :: rest).foldl (patrolStep (patrolCfg w h)) (initState p0))
        ((pre ++ q :: rest).getLastD p0)
      refine ⟨(patrolStep (patrolCfg w h) (initState p0) q).lastKept, ?_, ?_⟩
      · show (patrolStep (patrolCfg w h) (initState p0) q).lastKept ∈
          (patrolTail (patrolCfg w h)
            ((pre ++ q :: rest).foldl (patrolStep (patrolCfg w h)) (initState p0))
            ((pre ++ q :: rest).getLastD p0)).simplified
        rw [h2, hfold, h1, happ]
        simp
      · obtain ⟨hx', hy', ht', -, -, -⟩ := hinv
        simp [trajProj, hx', hy', ht']

/-- Witness for the amended C1: head preservation on the endpoint sample set;
a valid sample after an invalid head is represented; a valid, far, late tail
is appended. -/
theorem claim_C1_amended_witness :
    ((simplifyTrajectoryForPatrol endpointSamples 100 100).head?.map trajProj =
      endpointSamples.head?.map trajProj) ∧
    (∃ out ∈ simplifyTrajectoryForPatrol
        [⟨none, some 0, some (some 0), "", none, none⟩, mkSample 5 5 1000 ""] 100 100,
      trajProj out = trajProj (mkSample 5 5 1000 "")) ∧
    (∃ qn, (patrolTail (patrolCfg 100 100) (initState (mkSample 0 0 0 ""))
          (mkSample 50 50 100000 "")).simplified =
        (initState (mkSample 0 0 0 "")).simplified ++ [qn] ∧
      qn.timestamp = (mkSample 50 50 100000 "").timestamp ∧
      ((qn.x = (mkSample 50 50 100000 "").x ∧ qn.y = (mkSample 50 50 100000 "").y) ∨
        (qn.x = (initState (mkSample 0 0 0 "")).anchorX ∧
          qn.y = (initState (mkSample 0 0 0 "")).anchorY))) :=
  ⟨claim_C1_amended.1 endpointSamples 100 100 (by decide),
   claim_C1_amended.2.1 ⟨none, some 0, some (some 0), "", none, none⟩ (mkSample 5 5 1000 "")
     [] [] 100 100 (Or.inl rfl) (by simp) (by decide) (by decide),
   claim_C1_amended.2.2 (patrolCfg 100 100) (initState (mkSample 0 0 0 ""))
     (mkSample 50 50 100000 "") (by decide) (by decide) (by decide)
     (by norm_num [ogeB, distSq, dtMsOf, dt90B, initState, mkSample, timestampMs, patrolCfg_100])⟩

/-- Appending one element to a chain whose last entry relates to it. -/
theorem chain'_append_singleton {α : Type} {R : α → α → Prop} {l : List α} {a b : α}
    (h : l.Chain' R) (hl : l.getLast? = some a) (hR : R a b) : (l ++ [b]).Chain' R := by
  rw [List.chain'_append]
  refine ⟨h, List.chain'_singleton b, ?_⟩
  intro x hx y hy
  rw [hl] at hx
  simp only [Option.mem_def, Option.some_inj] at hx
  simp only [List.head?_cons, Option.mem_def, Option.some_inj] at hy
  rw [← hx, ← hy]
  exact hR

theorem getLast?_cons_eq {α : Type} :
    ∀ (l : List α) (a : α), (a :: l).getLast? = some (l.getLastD a) := by
  intro l
  induction l with
  | nil => intro a; rfl
  | cons b t ih =>
    intro a
    rw [List.getLastD_cons]
    rw [show (a :: b :: t).getLast? = (b :: t).getLast? from rfl]
    exact ih b

theorem getLastD_concat {α : Type} :
    ∀ (l : List α) (a d : α), (l ++ [a]).getLastD d = a := by
  intro l
  induction l with
  | nil => intro a d; rfl
  | cons b t ih =>
    intro a d
    rw [List.cons_append, List.getLastD_cons]
    exact ih a b

/-- Extracting the parsed endpoints from a passed stationary-gap test. -/
theorem dt90B_spec {a b : TS} (h : dt90B (dtMsOf a b) = true) :
    ∃ tp tc : ℤ, timestampMs a = some tp ∧ timestampMs b = some tc ∧ 90000 ≤ tc - tp := by
  unfold dtMsOf at h
  rcases ha : timestampMs a with _ | tp
  · rw [ha] at h
    exact absurd h (by simp [dt90B])
  · rcases hb : timestampMs b with _ | tc
    · rw [ha, hb] at h
      exact absurd h (by simp [dt90B])
    · rw [ha, hb] at h
      have : (90000 : ℤ) ≤ max 0 (tc - tp) := by
        have := of_decide_eq_true h
        exact this
      exact ⟨tp, tc, rfl, rfl, by omega⟩

/-- A passed `≤`-test pins the operand to a finite value below the bound. -/
theorem oleB_spec {v : Option ℚ} {c : ℚ} (h : oleB v c = true) :
    ∃ d, v = some d ∧ d ≤ c := by
  rcases hv : v with _ | d
  · rw [hv] at h
    exact absurd h (by simp [oleB])
  · rw [hv] at h
    exact ⟨d, rfl, of_decide_eq_true h⟩

/-- One scan iteration preserves the first-run invariant: the anchor tracks
the last retained point, `lastKept` closes the list, and every appended pair
has a live shape. -/
theorem scanInv_step (cfg : PatrolCfg) (s : PatrolState) (curr : Pt)
    (hinv : ScanInv cfg s) : ScanInv cfg (patrolStep cfg s curr) := by
  obtain ⟨hax, hay, hlast, hchain⟩ := hinv
  by_cases hval : curr.x = none ∨ curr.y = none
  · rw [patrolStep_invalid cfg s curr hval]
    exact ⟨hax, hay, hlast, hchain⟩
  · push_neg at hval
    have hqx : curr.x.isSome := Option.ne_none_iff_isSome.mp hval.1
    have hqy : curr.y.isSome := Option.ne_none_iff_isSome.mp hval.2
    by_cases hnear : oleB (distSq curr.x curr.y s.anchorX s.anchorY)
        cfg.anchorClusterRadiusSqPx = true
    · rw [patrolStep_near cfg s curr hqx hqy hnear]
      obtain ⟨hds, hdk, hdax, hday⟩ := dwellUpdate_spec cfg s (timestampMs curr.timestamp)
      by_cases hemit : ((dwellUpdate cfg s (timestampMs curr.timestamp)).inStationaryMode &&
          dt90B (dtMsOf s.lastKept.timestamp curr.timestamp)) = true
      · rw [if_pos hemit]
        have hdt := ((Bool.and_eq_true _ _).mp hemit).2
        obtain ⟨tp, tc, htp, htc, hgap⟩ := dt90B_spec hdt
        obtain ⟨d', hd', -⟩ := oleB_spec hnear
        obtain ⟨-, -, haxs, hays⟩ := distSq_isSome hd'
        obtain ⟨hps, hpx', hpy', hpt', hpax, hpay, -, -⟩ :=
          pushFrom_spec (dwellUpdate cfg s (timestampMs curr.timestamp)) curr
            (dwellUpdate cfg s (timestampMs curr.timestamp)).anchorX
            (dwellUpdate cfg s (timestampMs curr.timestamp)).anchorY
        refine ⟨?_, ?_, ?_, ?_⟩
        · rw [hpax, hpx', hdax]
        · rw [hpay, hpy', hday]
        · rw [hps, hds]
          exact List.getLast?_concat _
        · rw [hps, hds]
          apply chain'_append_singleton hchain hlast
          refine Or.inr (Or.inl ⟨?_, ?_, ?_, ?_, tp, tc, htp, ?_, by omega⟩)
          · rw [hpx', hdax, hax]
          · rw [hpy', hday, hay]
          · rw [← hax]
            exact haxs
          · rw [← hay]
            exact hays
          · rw [hpt']
            exact htc
      · rw [if_neg hemit]
        refine ⟨?_, ?_, ?_, ?_⟩
        · rw [hdax, hdk, hax]
        · rw [hday, hdk, hay]
        · rw [hds, hdk]
          exact hlast
        · rw [hds]
          exact hchain
    · rw [Bool.not_eq_true] at hnear
      by_cases hg1 : (dtLtB (dtMsOf s.lastKept.timestamp curr.timestamp) cfg.minMovingGapMs &&
          oltB (distSq curr.x curr.y s.lastKept.x s.lastKept.y)
            (cfg.anchorClusterRadiusSqPx * (65 / 100) ^ 2)) = true
      · rw [patrolStep_far_gate1 cfg s curr hqx hqy hnear hg1]
        exact ⟨hax, hay, hlast, hchain⟩
      · rw [Bool.not_eq_true] at hg1
        by_cases hg2 : oltB (distSq curr.x curr.y s.lastKept.x s.lastKept.y)
            cfg.microMoveSqPx = true
        · rw [patrolStep_far_gate2 cfg s curr hqx hqy hnear hg1 hg2]
          exact ⟨hax, hay, hlast, hchain⟩
        · rw [Bool.not_eq_true] at hg2
          rw [patrolStep_far_keep cfg s curr hqx hqy hnear hg1 hg2]
          obtain ⟨hps, hpx', hpy', hpt', hpax, hpay, -, -⟩ :=
            pushFrom_spec
              { s with
                  inStationaryMode := false
                  anchorX := curr.x
                  anchorY := curr.y
                  anchorSinceMs := timestampMs curr.timestamp }
              curr curr.x curr.y
          refine ⟨?_, ?_, ?_, ?_⟩
          · rw [hpax, hpx']
          · rw [hpay, hpy']
          · rw [hps]
            exact List.getLast?_concat _
          · rw [hps]
            apply chain'_append_singleton hchain hlast
            rcases hdd : distSq curr.x curr.y s.lastKept.x s.lastKept.y with _ | d
            · refine Or.inr (Or.inr ⟨distSq_none_of_valid hqx hqy hdd, ?_, ?_⟩)
              · rw [hpx']
                exact hqx
              · rw [hpy']
                exact hqy
            · refine Or.inl ⟨d, ?_, ?_⟩
              · rw [hpx', hpy']
                exact hdd
              · rw [hax, hay] at hnear
                rw [hdd] at hnear
                have := of_decide_eq_false hnear
                exact lt_of_not_le this

/-- The whole scan preserves the first-run invariant. -/
theorem foldl_scanInv (cfg : PatrolCfg) :
    ∀ (l : List Pt) (s : PatrolState), ScanInv cfg s →
      ScanInv cfg (l.foldl (patrolStep cfg) s) := by
  intro l
  induction l with
  | nil => exact fun s h => h
  | cons p t ih => exact fun s h => ih (patrolStep cfg s p) (scanInv_step cfg s p h)

/-- The initial state satisfies the first-run invariant. -/
theorem initState_scanInv (cfg : PatrolCfg) (p0 : Pt) : ScanInv cfg (initState p0) :=
  ⟨rfl, rfl, rfl, List.chain'_singleton _⟩

/-- Tail handling either changes nothing or appends one point forming a live
or tail-shaped pair with the last retained point. -/
theorem scanInv_tail (cfg : PatrolCfg) (s : PatrolState) (tl : Pt)
    (hinv : ScanInv cfg s) :
    (patrolTail cfg s tl).simplified = s.simplified ∨
    ∃ qn, (patrolTail cfg s tl).simplified = s.simplified ++ [qn] ∧
      (pairR cfg s.lastKept qn ∨ tailPairR cfg s.lastKept qn) := by
  obtain ⟨hax, hay, -, -⟩ := hinv
  by_cases hval : tl.x = none ∨ tl.y = none
  · rw [patrolTail_invalid cfg s tl hval]
    exact Or.inl rfl
  · push_neg at hval
    have hqx : tl.x.isSome := Option.ne_none_iff_isSome.mp hval.1
    have hqy : tl.y.isSome := Option.ne_none_iff_isSome.mp hval.2
    by_cases hdup : (s.lastKept.timestamp == tl.timestamp &&
        oltB (distSq s.lastKept.x s.lastKept.y tl.x tl.y) (1 / 10000)) = true
    · rw [patrolTail_dup cfg s tl hqx hqy hdup]
      exact Or.inl rfl
    · rw [Bool.not_eq_true] at hdup
      by_cases hgo : (ogeB (distSq tl.x tl.y s.lastKept.x s.lastKept.y) cfg.microMoveSqPx ||
          dt90B (dtMsOf s.lastKept.timestamp tl.timestamp)) = true
      · by_cases hsnap : (oleB (distSq tl.x tl.y s.anchorX s.anchorY)
            cfg.anchorClusterRadiusSqPx &&
            dt90B (dtMsOf s.lastKept.timestamp tl.timestamp)) = true
        · -- anchor-snapped tail: a stationary pair
          rw [patrolTail_snap cfg s tl hqx hqy hdup hgo hsnap]
          obtain ⟨hps, hpx', hpy', hpt', -, -, -, -⟩ := pushFrom_spec s tl s.anchorX s.anchorY
          obtain ⟨hnear, hdt⟩ := (Bool.and_eq_true _ _).mp hsnap
          obtain ⟨tp, tc, htp, htc, hgap⟩ := dt90B_spec hdt
          obtain ⟨d', hd', -⟩ := oleB_spec hnear
          obtain ⟨-, -, haxs, hays⟩ := distSq_isSome hd'
          refine Or.inr ⟨_, hps, Or.inl (Or.inr (Or.inl
            ⟨?_, ?_, ?_, ?_, tp, tc, htp, ?_, by omega⟩))⟩
          · rw [hpx', hax]
          · rw [hpy', hay]
          · rw [← hax]
            exact haxs
          · rw [← hay]
            exact hays
          · rw [hpt']
            exact htc
        · -- raw tail: a movement, invalid-head or tail-shaped pair
          rw [Bool.not_eq_true] at hsnap
          rw [patrolTail_raw cfg s tl hqx hqy hdup hgo hsnap]
          obtain ⟨hps, hpx', hpy', hpt', -, -, -, -⟩ := pushFrom_spec s tl tl.x tl.y
          refine Or.inr ⟨_, hps, ?_⟩
          rcases hdd : distSq tl.x tl.y s.lastKept.x s.lastKept.y with _ | d
          · exact Or.inl (Or.inr (Or.inr ⟨distSq_none_of_valid hqx hqy hdd,
              by rw [hpx']; exact hqx, by rw [hpy']; exact hqy⟩))
          · by_cases hdt : dt90B (dtMsOf s.lastKept.timestamp tl.timestamp) = true
            · -- late tail not snapped: it must lie beyond the cluster radius
              have hfar : oleB (distSq tl.x tl.y s.anchorX s.anchorY)
                  cfg.anchorClusterRadiusSqPx = false := by
                rcases Bool.and_eq_false_iff.mp hsnap with h | h
                · exact h
                · rw [hdt] at h
                  exact absurd h (by simp)
              rw [hax, hay, hdd] at hfar
              refine Or.inl (Or.inl ⟨d, ?_, lt_of_not_le (of_decide_eq_false hfar)⟩)
              rw [hpx', hpy']
              exact hdd
            · -- early tail: the raw emission came from the micro-move test
              rw [Bool.not_eq_true] at hdt
              have hge : ogeB (distSq tl.x tl.y s.lastKept.x s.lastKept.y)
                  cfg.microMoveSqPx = true := by
                rcases Bool.or_eq_true_iff.mp hgo with h | h
                · exact h
                · rw [hdt] at h
                  exact absurd h (by simp)
              rw [hdd] at hge
              refine Or.inr ⟨d, ?_, of_decide_eq_true hge, ?_, ?_⟩
              · rw [hpx', hpy']
                exact hdd
              · -- the duplicate test failed
                intro ⟨hts, hlt⟩
                rcases Bool.and_eq_false_iff.mp hdup with h | h
                · rw [hpt'] at hts
                  rw [hts] at h
                  simp at h
                · rw [distSq_comm] at hdd
                  rw [hdd] at h
                  exact of_decide_eq_false h hlt
              · rw [hpt']
                exact hdt
      · rw [Bool.not_eq_true] at hgo
        rw [patrolTail_skip cfg s tl hqx hqy hdup hgo]
        exact Or.inl rfl

/-- Replaying a live pair as the final point: the loop retains it and the
tail handling then suppresses it as a duplicate — net one append. -/
theorem pair_last_step (cfg : PatrolCfg)
    (hmc : cfg.microMoveSqPx ≤ cfg.anchorClusterRadiusSqPx)
    (hc0 : 0 < cfg.anchorClusterRadiusSqPx)
    (hdw : cfg.minDwellConfirmMs ≤ 90000)
    (s : PatrolState) (p q : Pt) (hinv : ReplayInv s p) (hpair : pairR cfg p q) :
    (patrolTail cfg (patrolStep cfg s q) q).simplified.length = s.simplified.length + 1 := by
  obtain ⟨happ, hinv'⟩ := step_replay cfg hmc hc0 hdw s p q hinv hpair
  have hqv : q.x.isSome ∧ q.y.isSome := by
    rcases hpair with ⟨d, hd, -⟩ | ⟨hxx, hyy, hxs, hys, -⟩ | ⟨-, hqx, hqy⟩
    · obtain ⟨h1, h2, -, -⟩ := distSq_isSome hd
      exact ⟨h1, h2⟩
    · exact ⟨hxx ▸ hxs, hyy ▸ hys⟩
    · exact ⟨hqx, hqy⟩
  rw [patrolTail_of_replayInv cfg _ q hinv' hqv.1 hqv.2, happ]
  simp

/-- Replaying a tail-shaped pair as the final point: either the loop retains
it (and the tail deduplicates), or the loop skips it in the near-anchor
branch (the gap being short) and the tail handling re-emits it raw — net one
append either way. -/
theorem tailPair_last_step (cfg : PatrolCfg)
    (hmc : cfg.microMoveSqPx ≤ cfg.anchorClusterRadiusSqPx)
    (hc0 : 0 < cfg.anchorClusterRadiusSqPx)
    (hdw : cfg.minDwellConfirmMs ≤ 90000)
    (s : PatrolState) (p q : Pt) (hinv : ReplayInv s p) (htp : tailPairR cfg p q) :
    (patrolTail cfg (patrolStep cfg s q) q).simplified.length = s.simplified.length + 1 := by
  obtain ⟨d, hd, hmicro, hndup, hndt⟩ := htp
  obtain ⟨hqxs, hqys, hpxs, hpys⟩ := distSq_isSome hd
  obtain ⟨hkx, hky, hkt, hax, hay, hsince⟩ := hinv
  have hdt : dt90B (dtMsOf s.lastKept.timestamp q.timestamp) = false := by
    rw [hkt]
    exact hndt
  by_cases hnear : oleB (distSq q.x q.y s.anchorX s.anchorY) cfg.anchorClusterRadiusSqPx = true
  · -- short gap inside the cluster: skipped by the loop, re-emitted raw by the tail
    have hskip : patrolStep cfg s q = dwellUpdate cfg s (timestampMs q.timestamp) := by
      rw [patrolStep_near cfg s q hqxs hqys hnear, if_neg (by simp [hdt])]
    rw [hskip]
    obtain ⟨hds, hdk, hdax, hday⟩ := dwellUpdate_spec cfg s (timestampMs q.timestamp)
    have hdup1 : ((dwellUpdate cfg s (timestampMs q.timestamp)).lastKept.timestamp ==
        q.timestamp &&
        oltB (distSq (dwellUpdate cfg s (timestampMs q.timestamp)).lastKept.x
          (dwellUpdate cfg s (timestampMs q.timestamp)).lastKept.y q.x q.y)
          (1 / 10000)) = false := by
      rw [hdk, hkx, hky, hkt, distSq_comm, hd]
      by_cases hts : p.timestamp = q.timestamp
      · have hd2 : ¬d < 1 / 10000 := fun hlt => hndup ⟨hts, hlt⟩
        rw [show oltB (some d) (1 / 10000) = false from decide_eq_false hd2, Bool.and_false]
      · rw [show (p.timestamp == q.timestamp) = false from beq_eq_false_iff_ne.mpr hts,
          Bool.false_and]
    have hgo1 : (ogeB (distSq q.x q.y
        (dwellUpdate cfg s (timestampMs q.timestamp)).lastKept.x
        (dwellUpdate cfg s (timestampMs q.timestamp)).lastKept.y) cfg.microMoveSqPx ||
        dt90B (dtMsOf (dwellUpdate cfg s (timestampMs q.timestamp)).lastKept.timestamp
          q.timestamp)) = true := by
      rw [hdk, hkx, hky, hd, ogeB_true_of_le hmicro, Bool.true_or]
    have hsnap1 : (oleB (distSq q.x q.y
        (dwellUpdate cfg s (timestampMs q.timestamp)).anchorX
        (dwellUpdate cfg s (timestampMs q.timestamp)).anchorY) cfg.anchorClusterRadiusSqPx &&
        dt90B (dtMsOf (dwellUpdate cfg s (timestampMs q.timestamp)).lastKept.timestamp
          q.timestamp)) = false := by
      rw [hdk, hdt, Bool.and_false]
    rw [patrolTail_raw cfg _ q hqxs hqys hdup1 hgo1 hsnap1,
      (pushFrom_spec _ _ _ _).1, hds]
    simp
  · -- beyond the cluster: a movement pair, handled by the live-pair replay
    rw [Bool.not_eq_true] at hnear
    have hc : cfg.anchorClusterRadiusSqPx < d := by
      rw [hax, hay, hd] at hnear
      exact lt_of_not_le (of_decide_eq_false hnear)
    exact pair_last_step cfg hmc hc0 hdw s p q ⟨hkx, hky, hkt, hax, hay, hsince⟩
      (Or.inl ⟨d, hd, hc⟩)

/-- Shape of the simplifier's output on a long input: some front list whose
consecutive pairs are all live, plus one final point whose pair with the last
front entry is live or tail-shaped. -/
theorem run1_shape (w h : ℚ) (p0 : Pt) (rest : List Pt)
    (hlen : ¬(p0 :: rest).length ≤ 2) :
    ∃ front qn, simplifyTrajectoryForPatrol (p0 :: rest) w h = front ++ [qn] ∧
      front.Chain' (pairR (patrolCfg w h)) ∧
      ∀ pv, front.getLast? = some pv →
        pairR (patrolCfg w h) pv qn ∨ tailPairR (patrolCfg w h) pv qn := by
  rw [simplifyTrajectoryForPatrol, if_neg hlen]
  show ∃ front qn,
    (patrolTail (patrolCfg w h)
      (rest.foldl (patrolStep (patrolCfg w h)) (initState p0)) (rest.getLastD p0)).simplified =
        front ++ [qn] ∧ _
  have hscan := foldl_scanInv (patrolCfg w h) rest (initState p0)
    (initState_scanInv (patrolCfg w h) p0)
  obtain ⟨haX, haY, hlastL, hchainL⟩ := hscan
  rcases scanInv_tail (patrolCfg w h)
      (rest.foldl (patrolStep (patrolCfg w h)) (initState p0)) (rest.getLastD p0)
      ⟨haX, haY, hlastL, hchainL⟩ with heq | ⟨qn, heq, hrel⟩
  · have hne : (rest.foldl (patrolStep (patrolCfg w h)) (initState p0)).simplified ≠ [] := by
      intro hnil
      rw [hnil] at hlastL
      exact absurd hlastL (by simp)
    refine ⟨_, _, by rw [heq]; exact (List.dropLast_append_getLast hne).symm,
      hchainL.prefix (List.dropLast_prefix _), ?_⟩
    intro pv hpv
    have hfull : ((rest.foldl (patrolStep (patrolCfg w h)) (initState p0)).simplified.dropLast ++
        [(rest.foldl (patrolStep (patrolCfg w h)) (initState p0)).simplified.getLast hne]).Chain'
          (pairR (patrolCfg w h)) := by
      rw [List.dropLast_append_getLast hne]
      exact hchainL
    exact Or.inl ((List.chain'_append.mp hfull).2.2 pv hpv _ rfl)
  · refine ⟨_, _, heq, hchainL, ?_⟩
    intro pv hpv
    rw [hlastL] at hpv
    injection hpv with hpv
    rw [← hpv]
    exact hrel

/-- **C8**: the simplifier is idempotent with respect to point count — for
every input sequence and frame size, re-running the simplifier on its own
output (same configuration) yields a sequence of the same length. -/
theorem claim_C8_idempotent_point_count (pts : List Pt) (w h : ℚ) :
    (simplifyTrajectoryForPatrol (simplifyTrajectoryForPatrol pts w h) w h).length =
      (simplifyTrajectoryForPatrol pts w h).length := by
  rcases ho : simplifyTrajectoryForPatrol pts w h with _ | ⟨p, mid⟩
  · rfl
  · by_cases hlen2 : (p :: mid).length ≤ 2
    · rw [simplifyTrajectoryForPatrol, if_pos hlen2]
    · rcases hpts : pts with _ | ⟨p0, rest⟩
      · rw [hpts] at ho
        exact absurd ho.symm (by simp [simplifyTrajectoryForPatrol])
      · by_cases hlenp : (p0 :: rest).length ≤ 2
        · rw [hpts, simplifyTrajectoryForPatrol, if_pos hlenp] at ho
          rw [ho] at hlenp
          exact absurd hlenp hlen2
        · obtain ⟨front, qn, hshape, hchainF, hlastF⟩ := run1_shape w h p0 rest hlenp
          rw [← hpts, ho] at hshape
          rcases front with _ | ⟨pf, midf⟩
          · rw [List.nil_append] at hshape
            have : mid = [] := (List.cons_eq_cons.mp hshape).2
            rw [this] at hlen2
            exact absurd (by norm_num) hlen2
          · rw [List.cons_append] at hshape
            obtain ⟨hpf, hmid⟩ := List.cons_eq_cons.mp hshape
            rw [simplifyTrajectoryForPatrol, if_neg hlen2]
            show (patrolTail (patrolCfg w h)
                (mid.foldl (patrolStep (patrolCfg w h)) (initState p))
                (mid.getLastD p)).simplified.length = (p :: mid).length
            rw [hmid, getLastD_concat, List.foldl_append, List.foldl_cons, List.foldl_nil]
            have hbounds := patrolCfg_bounds w h
            have hchainP : (p :: midf).Chain' (pairR (patrolCfg w h)) := by
              rw [hpf]
              exact hchainF
            have hfold := fold_replay (patrolCfg w h) hbounds.1 hbounds.2.1 hbounds.2.2 midf
              (initState p) p (initState_replayInv p) hchainP
            have hrel : pairR (patrolCfg w h) (midf.getLastD p) qn ∨
                tailPairR (patrolCfg w h) (midf.getLastD p) qn := by
              have := hlastF (midf.getLastD pf) (getLast?_cons_eq midf pf)
              rw [← hpf] at this
              exact this
            have hlenmid : (midf.foldl (patrolStep (patrolCfg w h))
                (initState p)).simplified.length = 1 + midf.length := by
              have := congrArg List.length hfold.1
              simpa using this
            rcases hrel with hrel | hrel
            · rw [pair_last_step (patrolCfg w h) hbounds.1 hbounds.2.1 hbounds.2.2 _ _ _
                hfold.2 hrel, hlenmid]
              simp [List.length_append]
              omega
            · rw [tailPair_last_step (patrolCfg w h) hbounds.1 hbounds.2.1 hbounds.2.2 _ _ _
                hfold.2 hrel, hlenmid]
              simp [List.length_append]
              omega
